import Mathlib

/-!
# Verification of the AHI codec (ASCII Hex Image)

A shallow embedding of the AHI image-collection codec: byte streams are
`List Nat` (each entry one byte), readers are state-passing functions
`List Nat → Except Err (α × List Nat)`, and writers produce `List Nat`.
Machine integers are modelled as `Nat`/`Int`; the one place where `u32`
overflow matters (`Image::new`) takes an explicit `% 2^32`.
-/

namespace Ahi

/-- Error kinds of the codec.  The Rust code returns `io::Error` values with
free-form messages; we model each distinct failure site with its own kind.
`eof` stands for the `UnexpectedEof` error that `read_exact` produces on a
truncated stream, and `diverges` marks the one input class on which the
Rust `read_list_of_i16s` loop never terminates (an element expected at end
of input): release builds loop forever there, debug builds trip a
`debug_assert`. -/
inductive Err where
  | eof
  | unexpectedToken
  | missingDigits
  | misplacedSign
  | invalidDigit
  | valueTooLarge
  | negativeNotAllowed
  | invalidHexDigit
  | missingHexLiteral
  | hexLiteralTooLarge
  | tooManyPaletteDigits
  | invalidPixelCharacter
  | invalidCharEscape
  | invalidCharLiteralByte
  | invalidUnicodeScalar
  | emptyCharLiteral
  | missingListInteger
  | misplacedListSign
  | invalidListByte
  | listIntegerOutOfRange
  | unsupportedVersion
  | diverges
  deriving DecidableEq, Repr

/-- Bytes of an ASCII string literal, used for the fixed tokens of the format. -/
def strBytes (s : String) : List Nat := s.data.map Char.toNat

/-- The 16 colors of `src/internal/color.rs` (`enum Color`). -/
inductive Color where
  | transparent
  | black
  | darkRed
  | red
  | darkGreen
  | green
  | darkYellow
  | yellow
  | darkBlue
  | blue
  | darkMagenta
  | magenta
  | darkCyan
  | cyan
  | gray
  | white
  deriving DecidableEq, Repr, Fintype

/-- `Color::to_byte`: the uppercase hex character for each color. -/
def Color.toByte : Color → Nat
  | .transparent => 48
  | .black => 49
  | .darkRed => 50
  | .red => 51
  | .darkGreen => 52
  | .green => 53
  | .darkYellow => 54
  | .yellow => 55
  | .darkBlue => 56
  | .blue => 57
  | .darkMagenta => 65
  | .magenta => 66
  | .darkCyan => 67
  | .cyan => 68
  | .gray => 69
  | .white => 70

/-- `Color::from_byte`: decodes one pixel character; every byte other than
`'0'..'9'`/`'A'..'F'` is the "invalid pixel character" error. -/
def Color.fromByte (b : Nat) : Except Err Color :=
  match b with
  | 48 => .ok .transparent
  | 49 => .ok .black
  | 50 => .ok .darkRed
  | 51 => .ok .red
  | 52 => .ok .darkGreen
  | 53 => .ok .green
  | 54 => .ok .darkYellow
  | 55 => .ok .yellow
  | 56 => .ok .darkBlue
  | 57 => .ok .blue
  | 65 => .ok .darkMagenta
  | 66 => .ok .magenta
  | 67 => .ok .darkCyan
  | 68 => .ok .cyan
  | 69 => .ok .gray
  | 70 => .ok .white
  | _ => .error .invalidPixelCharacter

deriving instance DecidableEq for Except

/-- Sequencing for reader results: propagate the error, otherwise continue
with the value and the remaining bytes. -/
def pbind {α β : Type} (p : Except Err (α × List Nat))
    (f : α → List Nat → Except Err (β × List Nat)) :
    Except Err (β × List Nat) :=
  match p with
  | .error e => .error e
  | .ok (a, l) => f a l

@[simp] theorem pbind_ok {α β : Type} (a : α) (l : List Nat)
    (f : α → List Nat → Except Err (β × List Nat)) :
    pbind (.ok (a, l)) f = f a l := rfl

@[simp] theorem pbind_error {α β : Type} (e : Err)
    (f : α → List Nat → Except Err (β × List Nat)) :
    pbind (.error e : Except Err (α × List Nat)) f = .error e := rfl

/-- `read_exactly` (src/internal/util.rs): consume exactly the expected
literal; a shorter stream is an end-of-file error, a mismatch is the
"expected .. found .." error. -/
def readExactly (expected l : List Nat) : Except Err (Unit × List Nat) :=
  if l.length < expected.length then .error .eof
  else if l.take expected.length = expected then .ok ((), l.drop expected.length)
  else .error .unexpectedToken

/-- The scanning loop of `read_header_int` (src/internal/util.rs lines
85-121), with the mutable state (`negative`, `any_digits`, `value`) made
explicit.  When the stream ends before the terminator the Rust `for` loop
simply stops and the accumulated value is returned. -/
def readHeaderIntAux (t : Nat) (negative anyDigits : Bool) (value : Nat) :
    List Nat → Except Err (Int × List Nat)
  | [] => .ok (if negative then -(value : Int) else (value : Int), [])
  | b :: rest =>
    if b = t then
      if !anyDigits then .error .missingDigits
      else .ok (if negative then -(value : Int) else (value : Int), rest)
    else if b = 45 then
      if negative || anyDigits then .error .misplacedSign
      else readHeaderIntAux t true anyDigits value rest
    else if b < 48 ∨ b > 57 then .error .invalidDigit
    else
      let v := value * 10 + (b - 48)
      if v > 0xFFFF then .error .valueTooLarge
      else readHeaderIntAux t negative true v rest

/-- `read_header_int`: a decimal header integer, terminated by `t`. -/
def readHeaderInt (t : Nat) (l : List Nat) : Except Err (Int × List Nat) :=
  readHeaderIntAux t false false 0 l

/-- `read_header_uint` (src/internal/util.rs lines 123-131): as
`read_header_int` but negative results are rejected. -/
def readHeaderUint (t : Nat) (l : List Nat) : Except Err (Nat × List Nat) :=
  pbind (readHeaderInt t l) fun value l =>
    if value < 0 then .error .negativeNotAllowed
    else .ok (value.toNat, l)

/-- `read_hex_digits` (src/internal/util.rs lines 133-155): hex digit
values (case-insensitive) until the terminator; the stream ending also
ends the loop. -/
def readHexDigits (t : Nat) : List Nat → Except Err (List Nat × List Nat)
  | [] => .ok ([], [])
  | b :: rest =>
    if b = t then .ok ([], rest)
    else if 48 ≤ b ∧ b ≤ 57 then
      pbind (readHexDigits t rest) fun ds l => .ok ((b - 48) :: ds, l)
    else if 97 ≤ b ∧ b ≤ 102 then
      pbind (readHexDigits t rest) fun ds l => .ok ((b - 97 + 0xa) :: ds, l)
    else if 65 ≤ b ∧ b ≤ 70 then
      pbind (readHexDigits t rest) fun ds l => .ok ((b - 65 + 0xA) :: ds, l)
    else .error .invalidHexDigit

/-- `read_hex_u32` (src/internal/util.rs lines 157-173). -/
def readHexU32 (t : Nat) (l : List Nat) : Except Err (Nat × List Nat) :=
  pbind (readHexDigits t l) fun digits l =>
    if digits.isEmpty then .error .missingHexLiteral
    else if digits.length > 8 then .error .hexLiteralTooLarge
    else .ok (digits.foldl (fun value d => value * 0x10 + d) 0, l)

/-- Rust's `char::from_u32`, keeping the scalar value as a `Nat`:
defined exactly for values below `0x110000` that are not surrogates. -/
def charFromU32 (v : Nat) : Option Nat :=
  if v ≥ 0x110000 ∨ (0xD800 ≤ v ∧ v ≤ 0xDFFF) then none else some v

/-- `read_char_escape` (src/internal/util.rs lines 30-69): one character of
a quoted string/char literal; `none` means the closing quote was reached.
Decoded characters are Unicode scalar values. -/
def readCharEscape (quote : Nat) : List Nat → Except Err (Option Nat × List Nat)
  | [] => .error .eof
  | b :: rest =>
    if b = quote then .ok (none, rest)
    else if b = 92 then
      match rest with
      | [] => .error .eof
      | esc :: rest2 =>
        if esc = 92 then .ok (some 92, rest2)
        else if esc = 39 then .ok (some 39, rest2)
        else if esc = 34 then .ok (some 34, rest2)
        else if esc = 110 then .ok (some 10, rest2)
        else if esc = 114 then .ok (some 13, rest2)
        else if esc = 116 then .ok (some 9, rest2)
        else if esc = 117 then
          pbind (readExactly [123] rest2) fun _ l =>
          pbind (readHexU32 125 l) fun value l =>
            match charFromU32 value with
            | some c => .ok (some c, l)
            | none => .error .invalidUnicodeScalar
        else .error .invalidCharEscape
    else if b < 32 ∨ b > 126 then .error .invalidCharLiteralByte
    else .ok (some b, rest)

theorem readExactly_length {expected l r : List Nat} {u : Unit}
    (h : readExactly expected l = .ok (u, r)) :
    r.length + expected.length = l.length := by
  unfold readExactly at h
  split at h
  · exact absurd h (by simp)
  · split at h
    · simp only [Except.ok.injEq, Prod.mk.injEq] at h
      rw [← h.2, List.length_drop]
      omega
    · exact absurd h (by simp)

theorem readHexDigits_length {t : Nat} {l ds r : List Nat}
    (h : readHexDigits t l = .ok (ds, r)) : r.length ≤ l.length := by
  induction l generalizing ds r with
  | nil =>
    simp only [readHexDigits, Except.ok.injEq, Prod.mk.injEq] at h
    simp [← h.2]
  | cons b rest ih =>
    simp only [readHexDigits] at h
    split at h
    · simp only [Except.ok.injEq, Prod.mk.injEq] at h
      rw [← h.2]
      simp only [List.length_cons]
      omega
    · split at h
      · cases hrec : readHexDigits t rest with
        | error e => rw [hrec] at h; exact absurd h (by simp [pbind])
        | ok p =>
          obtain ⟨ds', r'⟩ := p
          rw [hrec] at h
          simp only [pbind_ok, Except.ok.injEq, Prod.mk.injEq] at h
          have := ih hrec
          rw [← h.2]
          simp only [List.length_cons]
          omega
      · split at h
        · cases hrec : readHexDigits t rest with
          | error e => rw [hrec] at h; exact absurd h (by simp [pbind])
          | ok p =>
            obtain ⟨ds', r'⟩ := p
            rw [hrec] at h
            simp only [pbind_ok, Except.ok.injEq, Prod.mk.injEq] at h
            have := ih hrec
            rw [← h.2]
            simp only [List.length_cons]
            omega
        · split at h
          · cases hrec : readHexDigits t rest with
            | error e => rw [hrec] at h; exact absurd h (by simp [pbind])
            | ok p =>
              obtain ⟨ds', r'⟩ := p
              rw [hrec] at h
              simp only [pbind_ok, Except.ok.injEq, Prod.mk.injEq] at h
              have := ih hrec
              rw [← h.2]
              simp only [List.length_cons]
              omega
          · exact absurd h (by simp)

theorem readHexU32_length {t : Nat} {l r : List Nat} {v : Nat}
    (h : readHexU32 t l = .ok (v, r)) : r.length ≤ l.length := by
  unfold readHexU32 at h
  cases hd : readHexDigits t l with
  | error e => rw [hd] at h; exact absurd h (by simp [pbind])
  | ok p =>
    obtain ⟨ds, r'⟩ := p
    rw [hd] at h
    simp only [pbind_ok] at h
    split at h
    · exact absurd h (by simp)
    · split at h
      · exact absurd h (by simp)
      · simp only [Except.ok.injEq, Prod.mk.injEq] at h
        rw [← h.2]
        exact readHexDigits_length hd

/-- Every successful `readCharEscape` consumes at least one byte. -/
theorem readCharEscape_length {quote : Nat} {l r : List Nat} {res : Option Nat}
    (h : readCharEscape quote l = .ok (res, r)) : r.length < l.length := by
  match l with
  | [] => exact absurd h (by simp [readCharEscape])
  | b :: rest =>
    simp only [readCharEscape] at h
    split at h
    · simp only [Except.ok.injEq, Prod.mk.injEq] at h
      obtain ⟨h1, h2⟩ := h
      subst h2
      simp only [List.length_cons]
      omega
    · split at h
      · match rest with
        | [] => exact absurd h (by simp)
        | esc :: rest2 =>
          simp only at h
          split at h
          · simp only [Except.ok.injEq, Prod.mk.injEq] at h
            obtain ⟨h1, h2⟩ := h
            subst h2
            simp only [List.length_cons]
            omega
          · split at h
            · simp only [Except.ok.injEq, Prod.mk.injEq] at h
              obtain ⟨h1, h2⟩ := h
              subst h2
              simp only [List.length_cons]
              omega
            · split at h
              · simp only [Except.ok.injEq, Prod.mk.injEq] at h
                obtain ⟨h1, h2⟩ := h
                subst h2
                simp only [List.length_cons]
                omega
              · split at h
                · simp only [Except.ok.injEq, Prod.mk.injEq] at h
                  obtain ⟨h1, h2⟩ := h
                  subst h2
                  simp only [List.length_cons]
                  omega
                · split at h
                  · simp only [Except.ok.injEq, Prod.mk.injEq] at h
                    obtain ⟨h1, h2⟩ := h
                    subst h2
                    simp only [List.length_cons]
                    omega
                  · split at h
                    · simp only [Except.ok.injEq, Prod.mk.injEq] at h
                      obtain ⟨h1, h2⟩ := h
                      subst h2
                      simp only [List.length_cons]
                      omega
                    · split at h
                      · cases he : readExactly [123] rest2 with
                        | error e => rw [he] at h; exact absurd h (by simp [pbind])
                        | ok p =>
                          obtain ⟨u, l1⟩ := p
                          rw [he] at h
                          simp only [pbind_ok] at h
                          cases hx : readHexU32 125 l1 with
                          | error e => rw [hx] at h; exact absurd h (by simp [pbind])
                          | ok p2 =>
                            obtain ⟨v, l2⟩ := p2
                            rw [hx] at h
                            simp only [pbind_ok] at h
                            split at h
                            · simp only [Except.ok.injEq, Prod.mk.injEq] at h
                              have h1 := readExactly_length he
                              have h2 := readHexU32_length hx
                              obtain ⟨h3, h4⟩ := h
                              subst h4
                              simp only [List.length_cons] at h1 ⊢
                              omega
                            · exact absurd h (by simp)
                      · exact absurd h (by simp)
      · split at h
        · exact absurd h (by simp)
        · simp only [Except.ok.injEq, Prod.mk.injEq] at h
          obtain ⟨h1, h2⟩ := h
          subst h2
          simp only [List.length_cons]
          omega

/-- The loop of `read_quoted_string` (src/internal/util.rs lines 243-251):
decode characters until the unescaped closing quote.  The loop is given a
recursion budget of the input length: every successful `readCharEscape`
consumes at least one byte (`readCharEscape_length`), so under the
invariant `l.length ≤ budget` the budget never runs out — at budget 0 the
input is empty and the `.eof` result equals `readCharEscape`'s own result
on an empty stream. -/
def readQuotedStringAux (quote : Nat) : Nat → List Nat →
    Except Err (List Nat × List Nat)
  | 0, _ => .error .eof
  | budget + 1, l =>
    match readCharEscape quote l with
    | .error e => .error e
    | .ok (none, r) => .ok ([], r)
    | .ok (some c, r) =>
      match readQuotedStringAux quote budget r with
      | .error e => .error e
      | .ok (cs, r2) => .ok (c :: cs, r2)

/-- `read_quoted_string`: an opening double quote, then characters until
the closing quote.  The decoded string is its list of scalar values. -/
def readQuotedString (l : List Nat) : Except Err (List Nat × List Nat) :=
  pbind (readExactly [34] l) fun _ l => readQuotedStringAux 34 l.length l

/-- How one pass of the inner `for` loop of `read_list_of_i16s`
(src/internal/util.rs lines 184-212) ended: at a `,`, at a `]`, at the end
of the stream, or by the early `break` once the accumulated magnitude
exceeded `0x8000`. -/
inductive ListEnd where
  | comma
  | rbracket
  | eofEnd
  | overflowBreak
  deriving DecidableEq, Repr

/-- The inner `for` loop of `read_list_of_i16s`, scanning one signed
decimal element up to `,` or `]`; `valuesEmpty` tells whether any element
was accumulated before (the loop reads `values.is_empty()`). -/
def readListIntScan (valuesEmpty : Bool) (negative anyDigits : Bool) (value : Nat) :
    List Nat → Except Err ((ListEnd × Bool × Bool × Nat) × List Nat)
  | [] => .ok ((.eofEnd, negative, anyDigits, value), [])
  | b :: rest =>
    if b = 93 ∨ b = 44 then
      if !anyDigits && (b = 44 || !valuesEmpty) then .error .missingListInteger
      else .ok ((if b = 93 then .rbracket else .comma, negative, anyDigits, value), rest)
    else if b = 45 then
      if negative || anyDigits then .error .misplacedListSign
      else readListIntScan valuesEmpty true anyDigits value rest
    else if b < 48 ∨ b > 57 then .error .invalidListByte
    else
      let v := value * 10 + (b - 48)
      if v > 0x8000 then .ok ((.overflowBreak, negative, true, v), rest)
      else readListIntScan valuesEmpty negative true v rest

theorem readListIntScan_length {ve neg anyD : Bool} {value : Nat} {l r : List Nat}
    {st : ListEnd × Bool × Bool × Nat}
    (h : readListIntScan ve neg anyD value l = .ok (st, r)) :
    r.length ≤ l.length ∧ (st.1 = .eofEnd → r = []) ∧
      (st.1 ≠ .eofEnd → r.length < l.length) := by
  induction l generalizing neg anyD value st r with
  | nil =>
    simp only [readListIntScan, Except.ok.injEq, Prod.mk.injEq] at h
    obtain ⟨h1, h2⟩ := h
    subst h2
    rw [← h1]
    simp
  | cons b rest ih =>
    simp only [readListIntScan] at h
    split at h
    · split at h
      · exact absurd h (by simp)
      · simp only [Except.ok.injEq, Prod.mk.injEq] at h
        obtain ⟨h1, h2⟩ := h
        subst h2
        rw [← h1]
        refine ⟨by simp only [List.length_cons]; omega, fun hk => ?_, fun _ => ?_⟩
        · exact absurd hk (by split <;> simp)
        · simp only [List.length_cons]; omega
    · split at h
      · split at h
        · exact absurd h (by simp)
        · obtain ⟨ha, hb, hc⟩ := ih h
          refine ⟨by simp only [List.length_cons]; omega, hb, fun hne => ?_⟩
          simp only [List.length_cons]
          omega
      · split at h
        · exact absurd h (by simp)
        · split at h
          · simp only [Except.ok.injEq, Prod.mk.injEq] at h
            obtain ⟨h1, h2⟩ := h
            subst h2
            rw [← h1]
            refine ⟨by simp only [List.length_cons]; omega, fun hk => ?_, fun _ => ?_⟩
            · exact absurd hk (by simp)
            · simp only [List.length_cons]; omega
          · obtain ⟨ha, hb, hc⟩ := ih h
            refine ⟨by simp only [List.length_cons]; omega, hb, fun hne => ?_⟩
            simp only [List.length_cons]
            omega

/-- The outer `while` loop of `read_list_of_i16s` (src/internal/util.rs
lines 180-229).  When the inner loop ends at end-of-stream with no digits
and no `]`, the Rust loop repeats forever without reading anything
(release builds; debug builds trip `debug_assert!(done)`); that state is
modelled by the explicit `diverges` error.  The loop carries a recursion
budget of the input length: each continuing iteration consumes at least
the element's terminator and the following space, so under the invariant
`l.length ≤ budget` the budget never runs out — at budget 0 the input is
empty, and on an empty stream the loop indeed diverges. -/
def readListLoop (values : List Int) : Nat → List Nat →
    Except Err (List Int × List Nat)
  | 0, _ => .error .diverges
  | budget + 1, l =>
    match readListIntScan values.isEmpty false false 0 l with
    | .error e => .error e
    | .ok ((kind, negative, anyDigits, value), r) =>
      let done := kind = ListEnd.rbracket
      if anyDigits then
        let v : Int := if negative then -(value : Int) else (value : Int)
        if v > 32767 ∨ v < -32768 then .error .listIntegerOutOfRange
        else if ¬done then
          match readExactly [32] r with
          | .error e => .error e
          | .ok (_, r2) => readListLoop (values ++ [v]) budget r2
        else .ok (values ++ [v], r)
      else if done then .ok (values, r)
      else .error .diverges

/-- `read_list_of_i16s` (src/internal/util.rs lines 175-231). -/
def readListOfI16s (l : List Nat) : Except Err (List Int × List Nat) :=
  pbind (readExactly [91] l) fun _ l => readListLoop [] l.length l



/-- An image (`src/internal/image.rs` / `src/lib.rs`): a row-major pixel
grid plus the optional tag and metadata carried per image by the
collection format (`Image::tag`/`Image::metadata`, whose accessors
`tag()`, `set_tag`, `metadata()`, `set_metadata` are used by
`src/internal/collect.rs`).  The tag is the string's list of Unicode
scalar values. -/
structure Image where
  width : Nat
  height : Nat
  pixels : List Color
  tag : List Nat
  metadata : List Int
  deriving DecidableEq, Repr

/-- `Image::new`: all pixels transparent, no tag, no metadata.  The pixel
count is computed in `u32` (`(width * height) as usize`), which wraps at
`2^32` when the product overflows (release semantics of the Rust source). -/
def Image.new (width height : Nat) : Image :=
  { width := width
    height := height
    pixels := List.replicate (width * height % 2 ^ 32) .transparent
    tag := []
    metadata := [] }

/-- Decode one row's worth of pixel characters, in order, first error wins
(the per-byte `Color::from_byte` loop shared by `Image::read_all` and the
per-image grid reader). -/
def colorsFromBytes : List Nat → Except Err (List Color)
  | [] => .ok []
  | b :: rest =>
    match Color.fromByte b with
    | .error e => .error e
    | .ok c =>
      match colorsFromBytes rest with
      | .error e => .error e
      | .ok cs => .ok (c :: cs)

/-- One pixel row: exactly `width` bytes (end-of-file error if fewer, as
`read_exact` into the row buffer), each decoded by `Color::from_byte`. -/
def readRow (width : Nat) (l : List Nat) : Except Err (List Color × List Nat) :=
  if l.length < width then .error .eof
  else
    match colorsFromBytes (l.take width) with
    | .error e => .error e
    | .ok cs => .ok (cs, l.drop width)

/-- Modelled from the spec: §4.5 ImageGridCodec read side ("given `width,
height`, read exactly `height` rows, each exactly `width` ColorCodec
characters followed by a newline").  This per-image reader (`Image::read`
called by `Collection::read`) is not part of the sources provided under
src/, only its caller is; the row logic coincides with the inner loop of
`Image::read_all` in src/internal/image.rs lines 91-97. -/
def readGrid (width : Nat) : Nat → List Nat → Except Err (List Color × List Nat)
  | 0, l => .ok ([], l)
  | h + 1, l =>
    pbind (readRow width l) fun row l =>
    pbind (readExactly [10] l) fun _ l =>
    pbind (readGrid width h l) fun restRows l =>
    .ok (row ++ restRows, l)

/-- Modelled from the spec: the `Image::read(reader, width, height)` entry
point used by `Collection::read`; produces the image with empty tag and
metadata (the caller sets them afterwards). -/
def Image.read (width height : Nat) (l : List Nat) :
    Except Err (Image × List Nat) :=
  pbind (readGrid width height l) fun pixels l =>
    .ok ({ width := width, height := height, pixels := pixels,
           tag := [], metadata := [] }, l)

/-- One output row of the pixel grid: `to_byte` of each pixel of the row,
indexed `row * width + col` as in the writer loops. -/
def Image.rowBytes (img : Image) (row : Nat) : List Nat :=
  (List.range img.width).map fun col =>
    (img.pixels.getD (row * img.width + col) .transparent).toByte

/-- Modelled from the spec: §4.5 ImageGridCodec write side ("mirror,
row-major, top-to-bottom, left-to-right", each row followed by a newline);
this is `Image::write`, called per image by `Collection::write`, and
coincides with the row loop of `Image::write_all` in
src/internal/image.rs lines 133-139. -/
def Image.writeBytes (img : Image) : List Nat :=
  ((List.range img.height).map fun row => img.rowBytes row ++ [10]).flatten

/-- `Image::read_all` (src/internal/image.rs lines 73-105): the
version-0-only entry point.  Reads the `ahi0 w.. h.. n..` header and then
`n` blank-line-separated grids. -/
def Image.readAllImages (width height : Nat) :
    Nat → List Nat → Except Err (List Image × List Nat)
  | 0, l => .ok ([], l)
  | n + 1, l =>
    pbind (readExactly [10] l) fun _ l =>
    pbind (readGrid width height l) fun pixels l =>
    pbind (Image.readAllImages width height n l) fun imgs l =>
    .ok ({ width := width, height := height, pixels := pixels,
           tag := [], metadata := [] } :: imgs, l)

/-- `Image::read_all`, header included. -/
def Image.readAll (l : List Nat) : Except Err (List Image × List Nat) :=
  pbind (readExactly (strBytes "ahi") l) fun _ l =>
  pbind (readHeaderUint 32 l) fun version l =>
  if version ≠ 0 then .error .unsupportedVersion
  else
    pbind (readExactly (strBytes "w") l) fun _ l =>
    pbind (readHeaderUint 32 l) fun width l =>
    pbind (readExactly (strBytes "h") l) fun _ l =>
    pbind (readHeaderUint 32 l) fun height l =>
    pbind (readExactly (strBytes "n") l) fun _ l =>
    pbind (readHeaderUint 10 l) fun numImages l =>
    Image.readAllImages width height numImages l

/-- `Image::flip_horz`. -/
def Image.flipHorz (img : Image) : Image :=
  { img with
    pixels :=
      ((List.range img.height).map fun row =>
        (List.range img.width).map fun col =>
          img.pixels.getD (row * img.width + img.width - col - 1)
            .transparent).flatten }

/-- `Image::flip_vert`. -/
def Image.flipVert (img : Image) : Image :=
  { img with
    pixels :=
      ((List.range img.height).map fun row =>
        (List.range img.width).map fun col =>
          img.pixels.getD ((img.height - row - 1) * img.width + col)
            .transparent).flatten }

/-- `Image::rotate_cw`: width and height swap. -/
def Image.rotateCw (img : Image) : Image :=
  { img with
    width := img.height
    height := img.width
    pixels :=
      ((List.range img.width).map fun row =>
        (List.range img.height).map fun col =>
          img.pixels.getD (img.width * (img.height - col - 1) + row)
            .transparent).flatten }

/-- `Image::rotate_ccw`: width and height swap. -/
def Image.rotateCcw (img : Image) : Image :=
  { img with
    width := img.height
    height := img.width
    pixels :=
      ((List.range img.width).map fun row =>
        (List.range img.height).map fun col =>
          img.pixels.getD (img.width * col + (img.width - row - 1))
            .transparent).flatten }

/-- `Image::draw`: copy the non-transparent pixels of `src` onto `dst`
with `src`'s top-left corner at `(x, y)`, clipped to both images. -/
def Image.draw (dst : Image) (src : Image) (x y : Int) : Image :=
  let srcStartRow := min (max 0 (-y)).toNat src.height
  let srcStartCol := min (max 0 (-x)).toNat src.width
  let dstStartRow := min (max 0 y).toNat dst.height
  let dstStartCol := min (max 0 x).toNat dst.width
  let numRows := min (src.height - srcStartRow) (dst.height - dstStartRow)
  let numCols := min (src.width - srcStartCol) (dst.width - dstStartCol)
  { dst with
    pixels :=
      (List.range numRows).foldl (fun px row =>
        (List.range numCols).foldl (fun px col =>
          let color := src.pixels.getD
            ((srcStartRow + row) * src.width + (srcStartCol + col))
            .transparent
          if color ≠ .transparent then
            px.set ((dstStartRow + row) * dst.width + (dstStartCol + col)) color
          else px) px) dst.pixels }

/-- `Image::crop`: draw onto a fresh transparent image of the new size. -/
def Image.crop (img : Image) (newWidth newHeight : Nat) : Image :=
  (Image.new newWidth newHeight).draw img 0 0

/-- The `Index<(u32, u32)>` impl (src/internal/image.rs lines 267-276 and
src/lib.rs lines 417-426): a bounds check against width/height, then the
row-major offset, computed in `u32`.  The `panic!` on an out-of-range
coordinate — and the panic that slice indexing itself would raise — are
modelled as `none`. -/
def Image.colorAt (img : Image) (col row : Nat) : Option Color :=
  if col ≥ img.width ∨ row ≥ img.height then none
  else img.pixels.get? ((row * img.width + col) % 2 ^ 32)

/-- The `IndexMut<(u32, u32)>` impl (src/internal/image.rs lines 278-286
and src/lib.rs lines 428-436), as a whole-image update; `none` models the
panic exactly as in `Image.colorAt`. -/
def Image.setColor (img : Image) (col row : Nat) (c : Color) : Option Image :=
  if col ≥ img.width ∨ row ≥ img.height then none
  else if (row * img.width + col) % 2 ^ 32 < img.pixels.length then
    some { img with pixels := img.pixels.set ((row * img.width + col) % 2 ^ 32) c }
  else none

/-- An RGBA quadruple, each channel one byte. -/
abbrev Rgba := Nat × Nat × Nat × Nat

/-- The per-slot decode table of `Palette::read`
(src/internal/palette.rs lines 54-97): 0-8 hex digit values interpreted
by digit count; more than 8 digits is the "too many digits" error. -/
def paletteFieldDecode (digits : List Nat) : Except Err Rgba :=
  match digits with
  | [] => .ok (0, 0, 0, 0)
  | [d0] => .ok (d0 * 0x11, d0 * 0x11, d0 * 0x11, 255)
  | [d0, d1] =>
    .ok (d0 * 0x10 + d1, d0 * 0x10 + d1, d0 * 0x10 + d1, 255)
  | [d0, d1, d2] => .ok (d0 * 0x11, d1 * 0x11, d2 * 0x11, 255)
  | [d0, d1, d2, d3] => .ok (d0 * 0x11, d1 * 0x11, d2 * 0x11, d3 * 0x11)
  | [d0, d1, d2, d3, d4] =>
    .ok (d0 * 0x11, d1 * 0x11, d2 * 0x11, d3 * 0x10 + d4)
  | [d0, d1, d2, d3, d4, d5] =>
    .ok (d0 * 0x10 + d1, d2 * 0x10 + d3, d4 * 0x10 + d5, 255)
  | [d0, d1, d2, d3, d4, d5, d6] =>
    .ok (d0 * 0x10 + d1, d2 * 0x10 + d3, d4 * 0x10 + d5, d6 * 0x11)
  | [d0, d1, d2, d3, d4, d5, d6, d7] =>
    .ok (d0 * 0x10 + d1, d2 * 0x10 + d3, d4 * 0x10 + d5, d6 * 0x10 + d7)
  | _ => .error .tooManyPaletteDigits

/-- The field loop of `Palette::read` (src/internal/palette.rs lines
49-100): `remaining` slots left to read; the terminator of the last slot
(index 15) is a newline, of every other one a semicolon.  A palette is
its list of 16 RGBA slots. -/
def paletteReadFields : Nat → List Nat → Except Err (List Rgba × List Nat)
  | 0, l => .ok ([], l)
  | remaining + 1, l =>
    let terminator := if remaining = 0 then 10 else 59
    pbind (readHexDigits terminator l) fun digits l =>
      match paletteFieldDecode digits with
      | .error e => .error e
      | .ok rgba =>
        pbind (paletteReadFields remaining l) fun rest l =>
          .ok (rgba :: rest, l)

/-- `Palette::read`: exactly 16 fields. -/
def paletteRead (l : List Nat) : Except Err (List Rgba × List Nat) :=
  paletteReadFields 16 l

/-- The per-slot encode logic of `Palette::write` (src/internal/palette.rs
lines 102-144), producing the hex digit values of the field: empty for
alpha 0, then the shortest of the gray / RGB-shorthand / full forms that
the branch structure of the source selects. -/
def paletteFieldDigits (c : Rgba) : List Nat :=
  let (r, g, b, a) := c
  if a = 0 then []
  else if a = 0xff then
    if r = g ∧ g = b then
      if r % 0x11 = 0 then [r / 0x11]
      else [r / 0x10, r % 0x10]
    else
      if r % 0x11 = 0 ∧ g % 0x11 = 0 ∧ b % 0x11 = 0 then
        [r / 0x11, g / 0x11, b / 0x11]
      else [r / 0x10, r % 0x10, g / 0x10, g % 0x10, b / 0x10, b % 0x10]
  else if a % 0x11 = 0 then
    if r % 0x11 = 0 ∧ g % 0x11 = 0 ∧ b % 0x11 = 0 then
      [r / 0x11, g / 0x11, b / 0x11, a / 0x11]
    else
      [r / 0x10, r % 0x10, g / 0x10, g % 0x10, b / 0x10, b % 0x10, a / 0x11]
  else
    if r % 0x11 = 0 ∧ g % 0x11 = 0 ∧ b % 0x11 = 0 then
      [r / 0x11, g / 0x11, b / 0x11, a / 0x10, a % 0x10]
    else
      [r / 0x10, r % 0x10, g / 0x10, g % 0x10, b / 0x10, b % 0x10,
       a / 0x10, a % 0x10]

/-- Uppercase hex character for a digit value (the `{:X}` formatting used
by `Palette::write` and the flags field). -/
def hexByteU (d : Nat) : Nat := if d < 10 then 48 + d else 55 + d

/-- Lowercase hex character for a digit value (the `{:x}` formatting used
by Rust's `escape_default` unicode escapes). -/
def hexByteL (d : Nat) : Nat := if d < 10 then 48 + d else 87 + d

/-- `Palette::write`: the 16 fields joined by `;`, the last followed by a
newline (in the source the newline is chosen at slot index 15; over the
16-slot list this is the final element). -/
def paletteWriteBytes : List Rgba → List Nat
  | [] => []
  | c :: rest =>
    (paletteFieldDigits c).map hexByteU ++
      (if rest.isEmpty then [10] else [59]) ++ paletteWriteBytes rest

/-- Decimal digits of a natural number, with a recursion budget: dividing
by ten strictly decreases a positive number, so a budget above `n` never
runs out. -/
def natToDecBytesAux : Nat → Nat → List Nat
  | 0, _ => []
  | budget + 1, n =>
    if n < 10 then [48 + n]
    else natToDecBytesAux budget (n / 10) ++ [48 + n % 10]

/-- Decimal digits (as ASCII bytes) of a natural number: Rust's `{}`
formatting for unsigned integers. -/
def natToDecBytes (n : Nat) : List Nat := natToDecBytesAux (n + 1) n

/-- Rust's `{}` formatting for a signed integer: a minus sign for
negative values, then the decimal digits of the magnitude. -/
def intToDecBytes (v : Int) : List Nat :=
  if v < 0 then 45 :: natToDecBytes (-v).toNat else natToDecBytes v.toNat

/-- Hex digits of a natural number with a recursion budget (see
`natToDecBytesAux`), through an arbitrary digit-to-byte map. -/
def natToHexBytesAux (digitByte : Nat → Nat) : Nat → Nat → List Nat
  | 0, _ => []
  | budget + 1, n =>
    if n < 16 then [digitByte n]
    else natToHexBytesAux digitByte budget (n / 16) ++ [digitByte (n % 16)]

/-- Uppercase hex digits (as ASCII bytes) of a natural number: Rust's
`{:X}` formatting. -/
def natToHexBytesU (n : Nat) : List Nat := natToHexBytesAux hexByteU (n + 1) n

/-- Lowercase hex digits of a natural number: Rust's `{:x}` formatting. -/
def natToHexBytesL (n : Nat) : List Nat := natToHexBytesAux hexByteL (n + 1) n

/-- Rust's `char::escape_default` on one scalar value, as the bytes it
prints: `\t`, `\r`, `\n`, `\\`, `\'`, `\"` escape with a backslash, any
other printable ASCII byte stands for itself, and everything else becomes
a `\u` escape with minimal lowercase hex digits wrapped in braces
(bytes 123 and 125).  `Collection::write` escapes every tag character
with it. -/
def charEscapeDefault (c : Nat) : List Nat :=
  if c = 9 then [92, 116]
  else if c = 13 then [92, 114]
  else if c = 10 then [92, 110]
  else if c = 92 then [92, 92]
  else if c = 39 then [92, 39]
  else if c = 34 then [92, 34]
  else if 32 ≤ c ∧ c ≤ 126 then [c]
  else 92 :: 117 :: 123 :: (natToHexBytesL c ++ [125])

/-- A collection (`src/internal/collect.rs` lines 86-92): palettes and
images, both ordered. -/
structure Collection where
  palettes : List (List Rgba)
  images : List Image
  deriving DecidableEq, Repr

/-- The `global_size` computation at the top of `Collection::write`
(src/internal/collect.rs lines 188-200): `some (0, 0)` for an empty image
list, the shared size when all images agree with the first, `none`
otherwise. -/
def Collection.globalSize (c : Collection) : Option (Nat × Nat) :=
  match c.images with
  | [] => some (0, 0)
  | img :: _ =>
    if c.images.all fun i => i.width = img.width && i.height = img.height
    then some (img.width, img.height)
    else none

/-- Whether any image carries a non-empty tag (lines 201-207). -/
def Collection.hasStringTags (c : Collection) : Bool :=
  c.images.any fun i => !i.tag.isEmpty

/-- Whether any image carries non-empty metadata (lines 208-214). -/
def Collection.hasMetadata (c : Collection) : Bool :=
  c.images.any fun i => !i.metadata.isEmpty

/-- The body of a metadata line: the values comma-and-space separated
(lines 273-283). -/
def metadataBody : List Int → List Nat
  | [] => []
  | v :: rest =>
    intToDecBytes v ++ (rest.map fun v => strBytes ", " ++ intToDecBytes v).flatten

/-- `Collection::write` (src/internal/collect.rs lines 187-291): choose
version 0 exactly when there are no palettes, a global size exists, and
no image carries a tag or metadata; otherwise version 1 with the flag
bits for individual dimensions / tags / metadata.  The `none` branch of
the version-0 header is unreachable (`global_size.unwrap()` in the
source). -/
def Collection.write (c : Collection) : List Nat :=
  let globalSize := c.globalSize
  let hasTags := c.hasStringTags
  let hasMeta := c.hasMetadata
  let header : List Nat :=
    if c.palettes.isEmpty && globalSize.isSome && !hasTags && !hasMeta then
      match globalSize with
      | some (w, h) =>
        strBytes "ahi0 w" ++ natToDecBytes w ++ strBytes " h" ++
          natToDecBytes h ++ strBytes " n" ++
          natToDecBytes c.images.length ++ [10]
      | none => []
    else
      let flags :=
        (if globalSize.isNone then 1 else 0) |||
        (if hasTags then 2 else 0) |||
        (if hasMeta then 4 else 0)
      strBytes "ahi1 f" ++ natToHexBytesU flags ++ strBytes " p" ++
        natToDecBytes c.palettes.length ++ strBytes " i" ++
        natToDecBytes c.images.length ++
        (match globalSize with
         | some (w, h) =>
           strBytes " w" ++ natToDecBytes w ++ strBytes " h" ++ natToDecBytes h
         | none => []) ++ [10]
  let paletteBlock : List Nat :=
    if c.palettes.isEmpty then []
    else [10] ++ (c.palettes.map paletteWriteBytes).flatten
  let imageBlock : List Nat :=
    (c.images.map fun img =>
      [10] ++
      (if hasTags then
        [34] ++ (img.tag.map charEscapeDefault).flatten ++ [34, 10]
       else []) ++
      (if hasMeta then [91] ++ metadataBody img.metadata ++ [93, 10] else []) ++
      (if globalSize.isNone then
        strBytes "w" ++ natToDecBytes img.width ++ strBytes " h" ++
          natToDecBytes img.height ++ [10]
       else []) ++
      img.writeBytes).flatten
  header ++ paletteBlock ++ imageBlock

/-- The palette loop of `Collection::read` (lines 146-148). -/
def readPalettes : Nat → List Nat → Except Err (List (List Rgba) × List Nat)
  | 0, l => .ok ([], l)
  | n + 1, l =>
    pbind (paletteRead l) fun p l =>
    pbind (readPalettes n l) fun ps l =>
    .ok (p :: ps, l)

/-- The image loop of `Collection::read` (lines 150-180): a blank line,
then — by flag — the tag line, the metadata line, the dimension line, and
finally the grid. -/
def readImages (flags gw gh : Nat) :
    Nat → List Nat → Except Err (List Image × List Nat)
  | 0, l => .ok ([], l)
  | n + 1, l =>
    pbind (readExactly [10] l) fun _ l =>
    pbind
      (if flags &&& 2 ≠ 0 then
        pbind (readQuotedString l) fun tag l =>
        pbind (readExactly [10] l) fun _ l => .ok (tag, l)
       else .ok ([], l)) fun tag l =>
    pbind
      (if flags &&& 4 ≠ 0 then
        pbind (readListOfI16s l) fun metadata l =>
        pbind (readExactly [10] l) fun _ l => .ok (metadata, l)
       else .ok ([], l)) fun metadata l =>
    pbind
      (if flags &&& 1 ≠ 0 then
        pbind (readExactly (strBytes "w") l) fun _ l =>
        pbind (readHeaderUint 32 l) fun w l =>
        pbind (readExactly (strBytes "h") l) fun _ l =>
        pbind (readHeaderUint 10 l) fun h l => .ok ((w, h), l)
       else .ok ((gw, gh), l)) fun wh l =>
    pbind (Image.read wh.1 wh.2 l) fun img l =>
    pbind (readImages flags gw gh n l) fun imgs l =>
    .ok ({ img with tag := tag, metadata := metadata } :: imgs, l)

/-- `Collection::read` (src/internal/collect.rs lines 101-183). -/
def Collection.read (l : List Nat) : Except Err (Collection × List Nat) :=
  pbind (readExactly (strBytes "ahi") l) fun _ l =>
  pbind (readHeaderUint 32 l) fun version l =>
  if version ≠ 0 ∧ version ≠ 1 then .error .unsupportedVersion
  else
    pbind
      (if version = 1 then
        pbind (readExactly (strBytes "f") l) fun _ l => readHexU32 32 l
       else .ok (0, l)) fun flags l =>
    pbind
      (if version = 1 then
        pbind (readExactly (strBytes "p") l) fun _ l => readHeaderUint 32 l
       else .ok (0, l)) fun numPalettes l =>
    pbind
      (if version = 0 then
        pbind (readExactly (strBytes "w") l) fun _ l =>
        pbind (readHeaderUint 32 l) fun w l =>
        pbind (readExactly (strBytes "h") l) fun _ l =>
        pbind (readHeaderUint 32 l) fun h l =>
        pbind (readExactly (strBytes "n") l) fun _ l =>
        pbind (readHeaderUint 10 l) fun n l => .ok ((n, w, h), l)
       else if flags &&& 1 ≠ 0 then
        pbind (readExactly (strBytes "i") l) fun _ l =>
        pbind (readHeaderUint 10 l) fun n l => .ok ((n, 0, 0), l)
       else
        pbind (readExactly (strBytes "i") l) fun _ l =>
        pbind (readHeaderUint 32 l) fun n l =>
        pbind (readExactly (strBytes "w") l) fun _ l =>
        pbind (readHeaderUint 32 l) fun w l =>
        pbind (readExactly (strBytes "h") l) fun _ l =>
        pbind (readHeaderUint 10 l) fun h l =>
        .ok ((n, w, h), l)) fun nwh l =>
    pbind
      (if numPalettes > 0 then readExactly [10] l else .ok ((), l)) fun _ l =>
    pbind (readPalettes numPalettes l) fun palettes l =>
    pbind (readImages flags nwh.2.1 nwh.2.2 nwh.1 l) fun images l =>
    .ok ({ palettes := palettes, images := images }, l)

example : readListOfI16s (strBytes "[]x") = .ok ([], strBytes "x") := by rfl

example : readListOfI16s (strBytes "[1, -2, 3]x") =
    .ok ([1, -2, 3], strBytes "x") := by rfl

example : readListOfI16s (strBytes "[-]") = .ok ([], []) := by rfl

example : readListOfI16s (strBytes "[32768]") = .error .listIntegerOutOfRange := by rfl

example : readListOfI16s (strBytes "[-32768]x") = .ok ([-32768], strBytes "x") := by rfl

example : readListOfI16s (strBytes "[99999]") = .error .listIntegerOutOfRange := by rfl

example : readListOfI16s (strBytes "[1,2]") = .error .unexpectedToken := by rfl

example : readListOfI16s (strBytes "[") = .error .diverges := by rfl

example : readQuotedString (strBytes "\"foo\"x") =
    .ok (strBytes "foo", strBytes "x") := by rfl

example : readHeaderUint 32 (strBytes "123 x") = .ok (123, strBytes "x") := by rfl

example : readHeaderInt 32 (strBytes "-42 x") = .ok (-42, strBytes "x") := by rfl

example : Collection.read (strBytes "ahi0 w0 h0 n0\n") =
    .ok ({ palettes := [], images := [] }, []) := by rfl

example : Collection.read (strBytes "ahi1 f0 p0 i0 w0 h0\n") =
    .ok ({ palettes := [], images := [] }, []) := by rfl

example :
    Collection.write { palettes := [], images := [] } = strBytes "ahi0 w0 h0 n0\n" := by
  rfl

example :
    Collection.read (strBytes "ahi0 w2 h2 n2\n\n20\n5D\n\nE0\n0E\n") =
      .ok ({ palettes := [],
             images :=
               [{ width := 2, height := 2,
                  pixels := [.darkRed, .transparent, .green, .cyan],
                  tag := [], metadata := [] },
                { width := 2, height := 2,
                  pixels := [.gray, .transparent, .transparent, .gray],
                  tag := [], metadata := [] }] }, []) := by rfl

example :
    paletteRead (strBytes "C;;7F;F00;1EBA;C2C7F;FF7F00;0;F;3F7FBF9;01234567;1;2;3;4;5\n") =
      .ok ([(0xcc, 0xcc, 0xcc, 0xff), (0, 0, 0, 0), (0x7f, 0x7f, 0x7f, 0xff),
            (0xff, 0, 0, 0xff), (0x11, 0xee, 0xbb, 0xaa), (0xcc, 0x22, 0xcc, 0x7f),
            (0xff, 0x7f, 0, 0xff), (0, 0, 0, 0xff), (0xff, 0xff, 0xff, 0xff),
            (0x3f, 0x7f, 0xbf, 0x99), (0x01, 0x23, 0x45, 0x67),
            (0x11, 0x11, 0x11, 0xff), (0x22, 0x22, 0x22, 0xff),
            (0x33, 0x33, 0x33, 0xff), (0x44, 0x44, 0x44, 0xff),
            (0x55, 0x55, 0x55, 0xff)], []) := by rfl

example :
    paletteWriteBytes [(0xcc, 0xcc, 0xcc, 0xff), (0, 0, 0, 0), (0x7f, 0x7f, 0x7f, 0xff),
            (0xff, 0, 0, 0xff), (0x11, 0xee, 0xbb, 0xaa), (0xcc, 0x22, 0xcc, 0x7f),
            (0xff, 0x7f, 0, 0xff), (0, 0, 0, 0xff), (0xff, 0xff, 0xff, 0xff),
            (0x3f, 0x7f, 0xbf, 0x99), (0x01, 0x23, 0x45, 0x67),
            (0x11, 0x11, 0x11, 0xff), (0x22, 0x22, 0x22, 0xff),
            (0x33, 0x33, 0x33, 0xff), (0x44, 0x44, 0x44, 0xff),
            (0x55, 0x55, 0x55, 0xff)] =
      strBytes "C;;7F;F00;1EBA;C2C7F;FF7F00;0;F;3F7FBF9;01234567;1;2;3;4;5\n" := by rfl

example :
    Collection.read (strBytes "ahi1 f7 p0 i2\n\n\"\"\n[1, -2, 3]\nw3 h1\n000\n\n\"foobar\"\n[]\nw1 h2\n0\n0\n") =
      .ok ({ palettes := [],
             images :=
               [{ width := 3, height := 1,
                  pixels := [.transparent, .transparent, .transparent],
                  tag := [], metadata := [1, -2, 3] },
                { width := 1, height := 2,
                  pixels := [.transparent, .transparent],
                  tag := strBytes "foobar", metadata := [] }] }, []) := by rfl

example :
    Collection.write
      { palettes := [],
        images :=
          [{ width := 3, height := 1,
             pixels := [.transparent, .transparent, .transparent],
             tag := [], metadata := [1, -2, 3] },
           { width := 1, height := 2,
             pixels := [.transparent, .transparent],
             tag := strBytes "foobar", metadata := [] }] } =
      strBytes "ahi1 f7 p0 i2\n\n\"\"\n[1, -2, 3]\nw3 h1\n000\n\n\"foobar\"\n[]\nw1 h2\n0\n0\n" := by
  rfl

set_option maxRecDepth 4096 in
/-- C4: `Color::to_byte` and `Color::from_byte` form a total bijection
between the 16 colors and the bytes `'0'..'9','A'..'F'` (48-57 and
65-70): decoding an encoded color gives the color back, encoding a
decoded byte gives the byte back, and every byte outside that set —
including lowercase `'a'..'f'` — fails with the invalid-pixel-character
error. -/
theorem claim_C4 :
    (∀ c : Color, Color.fromByte c.toByte = .ok c) ∧
    (∀ b : Nat, b < 256 →
      (((48 ≤ b ∧ b ≤ 57) ∨ (65 ≤ b ∧ b ≤ 70)) →
        ∃ c : Color, Color.fromByte b = .ok c ∧ c.toByte = b) ∧
      (¬((48 ≤ b ∧ b ≤ 57) ∨ (65 ≤ b ∧ b ≤ 70)) →
        Color.fromByte b = .error .invalidPixelCharacter)) := by
  constructor
  · intro c
    cases c <;> rfl
  · decide

/-- Witness for C4 at concrete bytes: 66 (`'B'`) decodes and re-encodes,
and 97 (lowercase `'a'`) is rejected. -/
theorem claim_C4_witness :
    (∃ c : Color, Color.fromByte 66 = .ok c ∧ c.toByte = 66) ∧
    Color.fromByte 97 = .error .invalidPixelCharacter :=
  ⟨(claim_C4.2 66 (by decide)).1 (by decide),
   (claim_C4.2 97 (by decide)).2 (by decide)⟩

/-- The digit loop of the claimed grammar for `read_decimal_int`: after
the optional leading minus has been consumed, only digits may appear
before the terminator; a further `-` is a misplaced sign, the terminator
with no digits so far is the missing-digits error, any other byte is an
invalid digit, and a magnitude above `0xFFFF` is the too-large error.
When the stream ends before the terminator no failure condition arises
and the accumulated value is returned. -/
def readDecimalIntSpecLoop (t : Nat) (negative anyDigits : Bool) (value : Nat) :
    List Nat → Except Err (Int × List Nat)
  | [] => .ok (if negative then -(value : Int) else (value : Int), [])
  | b :: rest =>
    if b = t then
      if anyDigits then
        .ok (if negative then -(value : Int) else (value : Int), rest)
      else .error .missingDigits
    else if b = 45 then .error .misplacedSign
    else if 48 ≤ b ∧ b ≤ 57 then
      let v := value * 10 + (b - 48)
      if v > 0xFFFF then .error .valueTooLarge
      else readDecimalIntSpecLoop t negative true v rest
    else .error .invalidDigit

/-- The claimed grammar of `read_decimal_int` (C5), transcribed from the
spec's words: an optional leading `-`, then one or more digits, then the
terminator, with the four failure conditions read against the
left-to-right scan. -/
def readDecimalIntSpec (t : Nat) (l : List Nat) : Except Err (Int × List Nat) :=
  match l with
  | [] => .ok (0, [])
  | b :: _ =>
    if b = t then .error .missingDigits
    else if b = 45 then readDecimalIntSpecLoop t true false 0 l.tail
    else readDecimalIntSpecLoop t false false 0 l

theorem readHeaderIntAux_eq_specLoop_neg (t : Nat) (anyD : Bool) (value : Nat)
    (l : List Nat) :
    readHeaderIntAux t true anyD value l = readDecimalIntSpecLoop t true anyD value l := by
  induction l generalizing anyD value with
  | nil => rfl
  | cons b rest ih =>
    simp only [readHeaderIntAux, readDecimalIntSpecLoop]
    by_cases hbt : b = t
    · simp [hbt]
      cases anyD <;> simp
    · by_cases hbm : b = 45
      · subst hbm
        simp [hbt]
      · by_cases hd : 48 ≤ b ∧ b ≤ 57
        · have hnd : ¬(b < 48 ∨ b > 57) := by omega
          simp only [if_neg hbt, if_neg hbm, if_pos hd, if_neg hnd]
          by_cases hv : value * 10 + (b - 48) > 0xFFFF
          · simp [hv]
          · simp [hv, ih]
        · have hnd : b < 48 ∨ b > 57 := by omega
          simp [hbt, hbm, hd, hnd]

theorem readHeaderIntAux_eq_specLoop_pos (t : Nat) (value : Nat) (l : List Nat) :
    readHeaderIntAux t false true value l = readDecimalIntSpecLoop t false true value l := by
  induction l generalizing value with
  | nil => rfl
  | cons b rest ih =>
    simp only [readHeaderIntAux, readDecimalIntSpecLoop]
    by_cases hbt : b = t
    · simp [hbt]
    · by_cases hbm : b = 45
      · subst hbm
        simp [hbt]
      · by_cases hd : 48 ≤ b ∧ b ≤ 57
        · have hnd : ¬(b < 48 ∨ b > 57) := by omega
          simp only [if_neg hbt, if_neg hbm, if_pos hd, if_neg hnd]
          by_cases hv : value * 10 + (b - 48) > 0xFFFF
          · simp [hv]
          · simp [hv, ih]
        · have hnd : b < 48 ∨ b > 57 := by omega
          simp [hbt, hbm, hd, hnd]

/-- C5: `read_header_int` behaves, on every input and terminator, exactly
as the claimed grammar: optional leading minus, then digits, then the
terminator; the terminator before any digit is the missing-digits error,
a minus after a digit or a second minus is the misplaced-sign error, any
other byte is the invalid-digit error, a magnitude exceeding `0xFFFF` is
the value-too-large error, and otherwise the accumulated magnitude (up to
65535, negated under a leading minus) is returned.  The error conditions
are read against the left-to-right scan (first violation wins); when the
stream ends before the terminator, no condition arises and the
accumulated value is returned. -/
theorem claim_C5 : ∀ (t : Nat) (l : List Nat),
    readHeaderInt t l = readDecimalIntSpec t l := by
  intro t l
  match l with
  | [] => rfl
  | b :: rest =>
    simp only [readHeaderInt, readHeaderIntAux, readDecimalIntSpec]
    by_cases hbt : b = t
    · simp [hbt]
    · by_cases hbm : b = 45
      · simp only [if_neg hbt, if_pos hbm, Bool.false_or, List.tail_cons]
        simp [readHeaderIntAux_eq_specLoop_neg]
      · by_cases hd : 48 ≤ b ∧ b ≤ 57
        · have hnd : ¬(b < 48 ∨ b > 57) := by omega
          simp only [if_neg hbt, if_neg hbm, if_neg hnd]
          rw [readDecimalIntSpecLoop]
          simp only [if_neg hbt, if_neg hbm, if_pos hd]
          by_cases hv : 0xFFFF < b - 48
          · simp [hv]
          · simp [hv, readHeaderIntAux_eq_specLoop_pos]
        · have hnd : b < 48 ∨ b > 57 := by omega
          simp only [if_neg hbt, if_neg hbm, if_pos hnd]
          rw [readDecimalIntSpecLoop]
          simp [hbt, hbm, hd]

/-- The value accumulated by the decimal scanners over a run of digit
bytes, starting from `acc`. -/
def decValueFrom (acc : Nat) (ds : List Nat) : Nat :=
  ds.foldl (fun a b => a * 10 + (b - 48)) acc

@[simp] theorem decValueFrom_nil (acc : Nat) : decValueFrom acc [] = acc := rfl

@[simp] theorem decValueFrom_cons (acc b : Nat) (ds : List Nat) :
    decValueFrom acc (b :: ds) = decValueFrom (acc * 10 + (b - 48)) ds := rfl

theorem decValueFrom_append (acc : Nat) (ds es : List Nat) :
    decValueFrom acc (ds ++ es) = decValueFrom (decValueFrom acc ds) es := by
  simp [decValueFrom, List.foldl_append]

theorem le_decValueFrom (acc : Nat) (ds : List Nat) : acc ≤ decValueFrom acc ds := by
  induction ds generalizing acc with
  | nil => simp
  | cons b ds ih =>
    calc acc ≤ acc * 10 + (b - 48) := by omega
    _ ≤ _ := ih _

/-- A maximal run of digit bytes, followed by the terminator, is consumed
by the `read_header_int` scanner and yields the accumulated value. -/
theorem readHeaderIntAux_digits (t : Nat) (neg anyD : Bool) (acc : Nat)
    (ds r : List Nat) (hds : ∀ b ∈ ds, 48 ≤ b ∧ b ≤ 57) (ht : t ∉ ds)
    (hv : decValueFrom acc ds ≤ 0xFFFF) (hstart : anyD = true ∨ ds ≠ []) :
    readHeaderIntAux t neg anyD acc (ds ++ t :: r) =
      .ok (if neg then -(decValueFrom acc ds : Int) else (decValueFrom acc ds : Int), r) := by
  induction ds generalizing anyD acc with
  | nil =>
    have ha : anyD = true := by
      rcases hstart with h | h
      · exact h
      · exact absurd rfl h
    subst ha
    simp [readHeaderIntAux]
  | cons b ds ih =>
    have hb := hds b (by simp)
    have hbt : b ≠ t := by
      intro h
      exact ht (by simp [h])
    have hbm : b ≠ 45 := by omega
    have hnd : ¬(b < 48 ∨ b > 57) := by omega
    simp only [List.cons_append, readHeaderIntAux, if_neg hbt, if_neg hbm,
      if_neg hnd]
    have hv' : decValueFrom (acc * 10 + (b - 48)) ds ≤ 0xFFFF := by
      simpa using hv
    have hle : acc * 10 + (b - 48) ≤ 0xFFFF :=
      le_trans (le_decValueFrom _ _) hv'
    have : ¬(acc * 10 + (b - 48) > 0xFFFF) := by omega
    simp only [if_neg this]
    simp only [List.append_eq]
    rw [ih true (acc * 10 + (b - 48)) (fun d hd => hds d (by simp [hd]))
      (fun hc => ht (by simp [hc])) hv' (Or.inl rfl)]
    simp

/-- `read_header_int` on a rendered decimal number: sign and digits then
terminator. -/
theorem readHeaderInt_digits (t : Nat) (ds r : List Nat)
    (hds : ∀ b ∈ ds, 48 ≤ b ∧ b ≤ 57) (ht : t ∉ ds) (hne : ds ≠ [])
    (hv : decValueFrom 0 ds ≤ 0xFFFF) :
    readHeaderInt t (ds ++ t :: r) = .ok ((decValueFrom 0 ds : Int), r) := by
  have := readHeaderIntAux_digits t false false 0 ds r hds ht hv (Or.inr hne)
  simpa [readHeaderInt] using this

theorem readHeaderInt_neg_digits (t : Nat) (ds r : List Nat)
    (hds : ∀ b ∈ ds, 48 ≤ b ∧ b ≤ 57) (ht : t ∉ ds) (hne : ds ≠ [])
    (htm : t ≠ 45) (hv : decValueFrom 0 ds ≤ 0xFFFF) :
    readHeaderInt t (45 :: ds ++ t :: r) = .ok (-(decValueFrom 0 ds : Int), r) := by
  have h45 : (45 : Nat) ≠ t := fun h => htm h.symm
  simp only [readHeaderInt, readHeaderIntAux, if_neg h45, if_pos rfl,
    Bool.or_self, Bool.false_or]
  have := readHeaderIntAux_digits t true false 0 ds r hds ht hv (Or.inr hne)
  simpa using this

/-- `read_header_int` can only fail with the four errors of its own scan;
in particular it never produces the negative-not-allowed error itself. -/
theorem readHeaderIntAux_ne_negErr (t : Nat) (neg anyD : Bool) (acc : Nat)
    (l : List Nat) :
    readHeaderIntAux t neg anyD acc l ≠ .error .negativeNotAllowed := by
  induction l generalizing neg anyD acc with
  | nil => simp [readHeaderIntAux]
  | cons b rest ih =>
    simp only [readHeaderIntAux]
    split
    · split <;> simp
    · split
      · split
        · simp
        · exact ih _ _ _
      · split
        · simp
        · split
          · simp
          · exact ih _ _ _

/-- C6 counterexample: the claim says `read_header_uint` rejects every
signed input including `"-0"`, but on the input bytes `"-0 "` (terminator
space) the parsed value is `-0 = 0`, the `value < 0` test fails, and the
call succeeds with 0. -/
theorem claim_C6_counterexample :
    readHeaderUint 32 (strBytes "-0 x") = .ok (0, strBytes "x") := by rfl

/-- C6 (amended): `read_header_uint` fails with the negative-not-allowed
error exactly when `read_header_int` returns a strictly negative value —
that is, when a minus sign is present *and* the magnitude is non-zero.
On a signed input with zero magnitude (such as `"-0"`) it succeeds and
returns 0, and on unsigned inputs it succeeds exactly when
`read_header_int` does, with the same value. -/
theorem claim_C6_amended : ∀ (t : Nat) (l : List Nat),
    (readHeaderUint t l = .error .negativeNotAllowed ↔
      ∃ v r, readHeaderInt t l = .ok (v, r) ∧ v < 0) ∧
    (∀ v r, readHeaderInt t l = .ok (v, r) → 0 ≤ v →
      readHeaderUint t l = .ok (v.toNat, r)) ∧
    (∀ ds r, (∀ b ∈ ds, 48 ≤ b ∧ b ≤ 57) → t ∉ ds → ds ≠ [] → t ≠ 45 →
      decValueFrom 0 ds ≤ 0xFFFF →
      readHeaderUint t (ds ++ t :: r) = .ok (decValueFrom 0 ds, r) ∧
      readHeaderUint t (45 :: ds ++ t :: r) =
        (if decValueFrom 0 ds = 0 then .ok (0, r)
         else .error .negativeNotAllowed)) := by
  intro t l
  refine ⟨⟨fun h => ?_, fun ⟨v, r, hv, hneg⟩ => ?_⟩, fun v r hv hnn => ?_, ?_⟩
  · unfold readHeaderUint at h
    cases hint : readHeaderInt t l with
    | error e =>
      rw [hint] at h
      simp only [pbind_error, Except.error.injEq] at h
      subst h
      exact absurd hint (readHeaderIntAux_ne_negErr t false false 0 l)
    | ok p =>
      obtain ⟨v, r⟩ := p
      rw [hint] at h
      simp only [pbind_ok] at h
      split at h
      · exact ⟨v, r, rfl, by assumption⟩
      · exact absurd h (by simp)
  · unfold readHeaderUint
    rw [hv]
    simp only [pbind_ok]
    rw [if_pos hneg]
  · unfold readHeaderUint
    rw [hv]
    simp only [pbind_ok]
    rw [if_neg (by omega)]
  · intro ds r hds ht hne htm hv
    constructor
    · unfold readHeaderUint
      rw [readHeaderInt_digits t ds r hds ht hne hv]
      simp only [pbind_ok]
      rw [if_neg (by omega)]
      simp
    · unfold readHeaderUint
      rw [readHeaderInt_neg_digits t ds r hds ht hne htm hv]
      simp only [pbind_ok]
      by_cases hz : decValueFrom 0 ds = 0
      · rw [hz]
        simp
      · rw [if_pos (by omega), if_neg hz]

/-- Witness for C6 (amended) at the concrete input `"12 "` and the signed
inputs `"-0 "` and `"-12 "` with terminator 32. -/
theorem claim_C6_amended_witness :
    readHeaderUint 32 (strBytes "12 ") = .ok (12, []) ∧
    readHeaderUint 32 (strBytes "-0 ") = .ok (0, []) ∧
    readHeaderUint 32 (strBytes "-12 ") = .error .negativeNotAllowed := by
  have h12 := (claim_C6_amended 32 (strBytes "12 ")).2.2 [49, 50] []
    (by decide) (by decide) (by decide) (by decide) (by decide)
  have hm := (claim_C6_amended 32 (strBytes "-12 ")).2.2 [49, 50] []
    (by decide) (by decide) (by decide) (by decide) (by decide)
  have hz := (claim_C6_amended 32 (strBytes "-0 ")).2.2 [48] []
    (by decide) (by decide) (by decide) (by decide) (by decide)
  refine ⟨?_, ?_, ?_⟩
  · have := h12.1
    simpa using this
  · have := hz.2
    simpa using this
  · have := hm.2
    simpa using this

/-- A byte accepted as a hex digit by `read_hex_digits`: `0-9`, `a-f` or
`A-F`. -/
def isHexDigitByte (b : Nat) : Prop :=
  (48 ≤ b ∧ b ≤ 57) ∨ (97 ≤ b ∧ b ≤ 102) ∨ (65 ≤ b ∧ b ≤ 70)

instance (b : Nat) : Decidable (isHexDigitByte b) := by
  unfold isHexDigitByte
  infer_instance

/-- The digit value of a hex digit byte. -/
def hexVal (b : Nat) : Nat :=
  if b ≤ 57 then b - 48 else if 97 ≤ b then b - 97 + 0xa else b - 65 + 0xA

/-- The value of a list of hex digit values, most significant first (the
fold of `read_hex_u32`). -/
def hexFold (ds : List Nat) : Nat := ds.foldl (fun value d => value * 0x10 + d) 0

/-- A maximal run of hex digit bytes followed by the terminator is
consumed by `read_hex_digits`, producing the digit values. -/
theorem readHexDigits_append (t : Nat) (ds r : List Nat)
    (hds : ∀ b ∈ ds, isHexDigitByte b) (ht : t ∉ ds) :
    readHexDigits t (ds ++ t :: r) = .ok (ds.map hexVal, r) := by
  induction ds with
  | nil => simp [readHexDigits]
  | cons b ds ih =>
    have hb := hds b (by simp)
    have hbt : b ≠ t := fun h => ht (by simp [h])
    have ih' := ih (fun d hd => hds d (by simp [hd])) (fun hc => ht (by simp [hc]))
    simp only [List.cons_append, readHexDigits, if_neg hbt]
    rcases hb with h1 | h2 | h3
    · have hv : hexVal b = b - 48 := by
        unfold hexVal
        rw [if_pos (by omega)]
      rw [if_pos h1, List.append_eq, ih']
      simp [hv]
    · have hv : hexVal b = b - 97 + 0xa := by
        unfold hexVal
        rw [if_neg (by omega), if_pos (by omega)]
      have hn : ¬(48 ≤ b ∧ b ≤ 57) := by omega
      rw [if_neg hn, if_pos h2, List.append_eq, ih']
      simp [hv]
    · have hv : hexVal b = b - 65 + 0xA := by
        unfold hexVal
        rw [if_neg (by omega), if_neg (by omega)]
      have hn1 : ¬(48 ≤ b ∧ b ≤ 57) := by omega
      have hn2 : ¬(97 ≤ b ∧ b ≤ 102) := by omega
      rw [if_neg hn1, if_neg hn2, if_pos h3, List.append_eq, ih']
      simp [hv]

/-- `read_hex_u32` on a run of 1-8 hex digit bytes followed by the
terminator. -/
theorem readHexU32_append (t : Nat) (ds r : List Nat)
    (hds : ∀ b ∈ ds, isHexDigitByte b) (ht : t ∉ ds) (hne : ds ≠ [])
    (hlen : ds.length ≤ 8) :
    readHexU32 t (ds ++ t :: r) = .ok (hexFold (ds.map hexVal), r) := by
  unfold readHexU32
  rw [readHexDigits_append t ds r hds ht]
  simp only [pbind_ok]
  rw [if_neg (by simpa using hne), if_neg (by simpa using hlen)]
  rfl

/-- C8: in a quoted string or quoted char (quote byte 34 or 39), the
escapes `\\`, `\'`, `\"`, `\n`, `\r`, `\t` decode to backslash, single
quote, double quote, newline, carriage return and tab; `\u` followed by a
braced run of 1-8 hex digits decodes to the scalar with that value when
it is a legal Unicode scalar (below 0x110000 and not a surrogate) and
fails with the invalid-unicode-scalar error otherwise; and every
unescaped byte below 0x20 or above 0x7E fails with the
invalid-char-literal-byte error. -/
theorem claim_C8 : ∀ (q : Nat) (rest : List Nat), q = 34 ∨ q = 39 →
    (readCharEscape q (92 :: 92 :: rest) = .ok (some 92, rest) ∧
     readCharEscape q (92 :: 39 :: rest) = .ok (some 39, rest) ∧
     readCharEscape q (92 :: 34 :: rest) = .ok (some 34, rest) ∧
     readCharEscape q (92 :: 110 :: rest) = .ok (some 10, rest) ∧
     readCharEscape q (92 :: 114 :: rest) = .ok (some 13, rest) ∧
     readCharEscape q (92 :: 116 :: rest) = .ok (some 9, rest)) ∧
    (∀ ds, ds ≠ [] → ds.length ≤ 8 → (∀ b ∈ ds, isHexDigitByte b) →
      readCharEscape q (92 :: 117 :: 123 :: (ds ++ 125 :: rest)) =
        (if hexFold (ds.map hexVal) ≥ 0x110000 ∨
            (0xD800 ≤ hexFold (ds.map hexVal) ∧ hexFold (ds.map hexVal) ≤ 0xDFFF)
         then .error .invalidUnicodeScalar
         else .ok (some (hexFold (ds.map hexVal)), rest))) ∧
    (∀ b, b < 32 ∨ b > 126 →
      readCharEscape q (b :: rest) = .error .invalidCharLiteralByte) := by
  intro q rest hq
  have hq92 : (92 : Nat) ≠ q := by rcases hq with h | h <;> omega
  refine ⟨?_, ?_, ?_⟩
  · simp [readCharEscape, hq92]
  · intro ds hne hlen hds
    have h125 : (125 : Nat) ∉ ds := by
      intro hc
      have := hds 125 hc
      unfold isHexDigitByte at this
      omega
    simp only [readCharEscape, if_neg hq92, if_pos rfl]
    norm_num
    rw [show readExactly [123] (123 :: (ds ++ 125 :: rest)) = .ok ((), ds ++ 125 :: rest)
      by simp [readExactly]]
    simp only [pbind_ok]
    rw [readHexU32_append 125 ds rest hds h125 hne hlen]
    simp only [pbind_ok]
    by_cases hval : hexFold (ds.map hexVal) ≥ 0x110000 ∨
        (0xD800 ≤ hexFold (ds.map hexVal) ∧ hexFold (ds.map hexVal) ≤ 0xDFFF)
    · rw [if_pos hval]
      simp [charFromU32, hval]
    · rw [if_neg hval]
      simp [charFromU32, hval]
  · intro b hb
    have hbq : b ≠ q := by rcases hq with h | h <;> omega
    have hb92 : b ≠ 92 := by omega
    simp [readCharEscape, hbq, hb92]
    omega

/-- Witness for C8 with quote byte 34: the `\t` escape, the snowman
escape `\u` with braced hex digits `2603`, a rejected surrogate escape
`\u` with digits `D800`, and the rejected raw byte 7. -/
theorem claim_C8_witness :
    readCharEscape 34 (92 :: 116 :: [99]) = .ok (some 9, [99]) ∧
    readCharEscape 34 (92 :: 117 :: 123 :: [50, 54, 48, 51, 125, 99]) =
      .ok (some 0x2603, [99]) ∧
    readCharEscape 34 (92 :: 117 :: 123 :: [68, 56, 48, 48, 125, 99]) =
      .error .invalidUnicodeScalar ∧
    readCharEscape 34 (7 :: [99]) = .error .invalidCharLiteralByte := by
  have h := claim_C8 34 [99] (Or.inl rfl)
  refine ⟨h.1.2.2.2.2.2, ?_, ?_, h.2.2 7 (by omega)⟩
  · have := h.2.1 [50, 54, 48, 51] (by decide) (by decide) (by decide)
    simpa using this
  · have := h.2.1 [68, 56, 48, 48] (by decide) (by decide) (by decide)
    simpa using this

/-- C10: for an image satisfying the length invariant (with a pixel count
that fits in `u32`, as every image built by the library does), indexing
at `(col, row)` is defined exactly when `col < width` and `row < height`,
and then reads or writes the pixel at offset `row * width + col`; every
out-of-range coordinate — in particular an over-wide column — is an
out-of-range panic (modelled as `none`) for both read and mutable
indexing, so it can never alias a pixel of a following row. -/
theorem claim_C10 : ∀ (img : Image) (col row : Nat),
    img.pixels.length = img.width * img.height →
    img.width * img.height < 2 ^ 32 →
    ((col < img.width ∧ row < img.height →
      img.colorAt col row = img.pixels.get? (row * img.width + col) ∧
      (img.colorAt col row).isSome ∧
      ∀ c : Color, img.setColor col row c =
        some { img with pixels := img.pixels.set (row * img.width + col) c }) ∧
     (col ≥ img.width ∨ row ≥ img.height →
      img.colorAt col row = none ∧
      ∀ c : Color, img.setColor col row c = none)) := by
  intro img col row hlen hsize
  constructor
  · intro ⟨hc, hr⟩
    have hidx : row * img.width + col < img.width * img.height := by
      have h1 : row * img.width + col < (row + 1) * img.width := by
        rw [Nat.succ_mul]
        omega
      have h2 : (row + 1) * img.width ≤ img.height * img.width :=
        Nat.mul_le_mul_right _ (by omega)
      calc row * img.width + col < (row + 1) * img.width := h1
        _ ≤ img.height * img.width := h2
        _ = img.width * img.height := Nat.mul_comm _ _
    have hmod : (row * img.width + col) % 2 ^ 32 = row * img.width + col :=
      Nat.mod_eq_of_lt (by omega)
    have hin : ¬(col ≥ img.width ∨ row ≥ img.height) := by omega
    refine ⟨?_, ?_, ?_⟩
    · unfold Image.colorAt
      rw [if_neg hin, hmod]
    · unfold Image.colorAt
      rw [if_neg hin, hmod]
      rw [List.get?_eq_getElem?, List.getElem?_eq_getElem (by omega)]
      simp
    · intro c
      unfold Image.setColor
      rw [if_neg hin, hmod, if_pos (by omega)]
  · intro hout
    constructor
    · unfold Image.colorAt
      rw [if_pos (by omega)]
    · intro c
      unfold Image.setColor
      rw [if_pos (by omega)]

/-- Witness for C10 on the concrete 2x2 image of `Image::new`: reading
and writing pixel `(1, 1)` is defined and addresses offset 3, and both
reads and writes at column 2 (one past the width) are out-of-range. -/
theorem claim_C10_witness :
    ((Image.new 2 2).colorAt 1 1 = (Image.new 2 2).pixels.get? 3 ∧
      ((Image.new 2 2).colorAt 1 1).isSome ∧
      ∀ c : Color, (Image.new 2 2).setColor 1 1 c =
        some { Image.new 2 2 with pixels := (Image.new 2 2).pixels.set 3 c }) ∧
    ((Image.new 2 2).colorAt 2 0 = none ∧
      ∀ c : Color, (Image.new 2 2).setColor 2 0 c = none) :=
  ⟨(claim_C10 (Image.new 2 2) 1 1 (by rfl) (by decide)).1 (by decide),
   (claim_C10 (Image.new 2 2) 2 0 (by rfl) (by decide)).2 (by decide)⟩

theorem colorsFromBytes_length {l : List Nat} {cs : List Color}
    (h : colorsFromBytes l = .ok cs) : cs.length = l.length := by
  induction l generalizing cs with
  | nil =>
    simp only [colorsFromBytes, Except.ok.injEq] at h
    simp [← h]
  | cons b rest ih =>
    simp only [colorsFromBytes] at h
    cases hb : Color.fromByte b with
    | error e => rw [hb] at h; exact absurd h (by simp)
    | ok c =>
      rw [hb] at h
      cases hr : colorsFromBytes rest with
      | error e => rw [hr] at h; exact absurd h (by simp)
      | ok cs' =>
        rw [hr] at h
        simp only [Except.ok.injEq] at h
        rw [← h]
        simp [ih hr]

theorem readRow_length {w : Nat} {l r : List Nat} {cs : List Color}
    (h : readRow w l = .ok (cs, r)) : cs.length = w := by
  unfold readRow at h
  split at h
  · exact absurd h (by simp)
  · cases hc : colorsFromBytes (l.take w) with
    | error e => rw [hc] at h; exact absurd h (by simp)
    | ok cs' =>
      rw [hc] at h
      simp only [Except.ok.injEq, Prod.mk.injEq] at h
      rw [← h.1]
      rw [colorsFromBytes_length hc]
      simp
      omega

theorem readGrid_length {w h : Nat} {l r : List Nat} {pix : List Color}
    (hg : readGrid w h l = .ok (pix, r)) : pix.length = w * h := by
  induction h generalizing l pix r with
  | zero =>
    simp only [readGrid, Except.ok.injEq, Prod.mk.injEq] at hg
    simp [← hg.1]
  | succ h ih =>
    simp only [readGrid] at hg
    cases hrow : readRow w l with
    | error e => rw [hrow] at hg; exact absurd hg (by simp [pbind])
    | ok p =>
      obtain ⟨row, l1⟩ := p
      rw [hrow] at hg
      simp only [pbind_ok] at hg
      cases hnl : readExactly [10] l1 with
      | error e => rw [hnl] at hg; exact absurd hg (by simp [pbind])
      | ok p2 =>
        obtain ⟨u, l2⟩ := p2
        rw [hnl] at hg
        simp only [pbind_ok] at hg
        cases hrest : readGrid w h l2 with
        | error e => rw [hrest] at hg; exact absurd hg (by simp [pbind])
        | ok p3 =>
          obtain ⟨rows, l3⟩ := p3
          rw [hrest] at hg
          simp only [pbind_ok, Except.ok.injEq, Prod.mk.injEq] at hg
          rw [← hg.1]
          simp only [List.length_append]
          rw [readRow_length hrow, ih hrest]
          ring

theorem readAllImages_invariant {w h n : Nat} {l r : List Nat} {imgs : List Image}
    (hr : Image.readAllImages w h n l = .ok (imgs, r)) :
    ∀ img ∈ imgs, img.pixels.length = img.width * img.height := by
  induction n generalizing l imgs r with
  | zero =>
    simp only [Image.readAllImages, Except.ok.injEq, Prod.mk.injEq] at hr
    rw [← hr.1]
    simp
  | succ n ih =>
    simp only [Image.readAllImages] at hr
    cases h1 : readExactly [10] l with
    | error e => rw [h1] at hr; exact absurd hr (by simp [pbind])
    | ok p1 =>
      obtain ⟨u, l1⟩ := p1
      rw [h1] at hr
      simp only [pbind_ok] at hr
      cases h2 : readGrid w h l1 with
      | error e => rw [h2] at hr; exact absurd hr (by simp [pbind])
      | ok p2 =>
        obtain ⟨pix, l2⟩ := p2
        rw [h2] at hr
        simp only [pbind_ok] at hr
        cases h3 : Image.readAllImages w h n l2 with
        | error e => rw [h3] at hr; exact absurd hr (by simp [pbind])
        | ok p3 =>
          obtain ⟨imgs', l3⟩ := p3
          rw [h3] at hr
          simp only [pbind_ok, Except.ok.injEq, Prod.mk.injEq] at hr
          rw [← hr.1]
          intro img himg
          simp only [List.mem_cons] at himg
          rcases himg with hfst | hmem
          · subst hfst
            simpa using readGrid_length h2
          · exact ih h3 img hmem

/-- The pixel list built by the nested loops of the flip/rotate
operations: `m` outer rounds of `n` pixels each. -/
theorem length_flatten_grid {α : Type} (m n : Nat) (f : Nat → Nat → α) :
    (((List.range m).map fun i => (List.range n).map (f i)).flatten).length =
      m * n := by
  induction m with
  | zero => simp
  | succ m ih =>
    rw [List.range_succ]
    simp only [List.map_append, List.map_cons, List.map_nil, List.flatten_append]
    simp only [List.length_append, ih]
    simp [Nat.succ_mul]

theorem foldl_length_preserved {β : Type} (g : List Color → β → List Color)
    (hg : ∀ px b, (g px b).length = px.length) (xs : List β) (px : List Color) :
    (xs.foldl g px).length = px.length := by
  induction xs generalizing px with
  | nil => rfl
  | cons x xs ih => rw [List.foldl_cons, ih, hg]

theorem draw_pixels_length (dst src : Image) (x y : Int) :
    (dst.draw src x y).pixels.length = dst.pixels.length := by
  unfold Image.draw
  apply foldl_length_preserved
  intro px row
  apply foldl_length_preserved
  intro px col
  dsimp only
  split
  · simp
  · rfl

/-- C9 counterexample: `Image::new(65536, 65536)` computes its pixel
count in `u32`, which wraps to 0, so the resulting image has an empty
pixel buffer although `width * height = 2^32`. -/
theorem claim_C9_counterexample :
    ¬((Image.new 65536 65536).pixels.length =
      (Image.new 65536 65536).width * (Image.new 65536 65536).height) := by
  decide

/-- C9 (amended): every image produced by the library satisfies
`len(pixels) = width * height` — zero-area images included — except that
`Image::new` (and hence `crop`, which allocates through it) computes the
pixel count in `u32`: the invariant it establishes is
`len = (width * height) mod 2^32`, so the claim holds for it exactly when
the product does not overflow.  `read_all` only accepts dimensions up to
0xFFFF, and the four flip/rotate operations always rebuild exactly
`width * height` pixels, so no hypothesis is needed there. -/
theorem claim_C9_amended :
    (∀ w h : Nat, (Image.new w h).pixels.length = w * h % 2 ^ 32) ∧
    (∀ w h : Nat, w * h < 2 ^ 32 →
      (Image.new w h).pixels.length = (Image.new w h).width * (Image.new w h).height) ∧
    (∀ (l r : List Nat) (imgs : List Image), Image.readAll l = .ok (imgs, r) →
      ∀ img ∈ imgs, img.pixels.length = img.width * img.height) ∧
    (∀ img : Image,
      img.flipHorz.pixels.length = img.flipHorz.width * img.flipHorz.height ∧
      img.flipVert.pixels.length = img.flipVert.width * img.flipVert.height ∧
      img.rotateCw.pixels.length = img.rotateCw.width * img.rotateCw.height ∧
      img.rotateCcw.pixels.length = img.rotateCcw.width * img.rotateCcw.height) ∧
    (∀ (img : Image) (nw nh : Nat), nw * nh < 2 ^ 32 →
      (img.crop nw nh).pixels.length = (img.crop nw nh).width * (img.crop nw nh).height) := by
  refine ⟨?_, ?_, ?_, ?_, ?_⟩
  · intro w h
    simp [Image.new]
  · intro w h hlt
    have hlt' : w * h < 4294967296 := by omega
    simp [Image.new, Nat.mod_eq_of_lt hlt']
  · intro l r imgs hread
    unfold Image.readAll at hread
    cases h1 : readExactly (strBytes "ahi") l with
    | error e => rw [h1] at hread; exact absurd hread (by simp [pbind])
    | ok p1 =>
      obtain ⟨u1, l1⟩ := p1
      rw [h1] at hread
      simp only [pbind_ok] at hread
      cases h2 : readHeaderUint 32 l1 with
      | error e => rw [h2] at hread; exact absurd hread (by simp [pbind])
      | ok p2 =>
        obtain ⟨version, l2⟩ := p2
        rw [h2] at hread
        simp only [pbind_ok] at hread
        split at hread
        · exact absurd hread (by simp)
        · cases h3 : readExactly (strBytes "w") l2 with
          | error e => rw [h3] at hread; exact absurd hread (by simp [pbind])
          | ok p3 =>
            obtain ⟨u3, l3⟩ := p3
            rw [h3] at hread
            simp only [pbind_ok] at hread
            cases h4 : readHeaderUint 32 l3 with
            | error e => rw [h4] at hread; exact absurd hread (by simp [pbind])
            | ok p4 =>
              obtain ⟨w, l4⟩ := p4
              rw [h4] at hread
              simp only [pbind_ok] at hread
              cases h5 : readExactly (strBytes "h") l4 with
              | error e => rw [h5] at hread; exact absurd hread (by simp [pbind])
              | ok p5 =>
                obtain ⟨u5, l5⟩ := p5
                rw [h5] at hread
                simp only [pbind_ok] at hread
                cases h6 : readHeaderUint 32 l5 with
                | error e => rw [h6] at hread; exact absurd hread (by simp [pbind])
                | ok p6 =>
                  obtain ⟨hh, l6⟩ := p6
                  rw [h6] at hread
                  simp only [pbind_ok] at hread
                  cases h7 : readExactly (strBytes "n") l6 with
                  | error e => rw [h7] at hread; exact absurd hread (by simp [pbind])
                  | ok p7 =>
                    obtain ⟨u7, l7⟩ := p7
                    rw [h7] at hread
                    simp only [pbind_ok] at hread
                    cases h8 : readHeaderUint 10 l7 with
                    | error e => rw [h8] at hread; exact absurd hread (by simp [pbind])
                    | ok p8 =>
                      obtain ⟨n, l8⟩ := p8
                      rw [h8] at hread
                      simp only [pbind_ok] at hread
                      exact readAllImages_invariant hread
  · intro img
    refine ⟨?_, ?_, ?_, ?_⟩
    · have := length_flatten_grid img.height img.width fun row col =>
        img.pixels.getD (row * img.width + img.width - col - 1) Color.transparent
      simpa [Image.flipHorz, Nat.mul_comm] using this
    · have := length_flatten_grid img.height img.width fun row col =>
        img.pixels.getD ((img.height - row - 1) * img.width + col) Color.transparent
      simpa [Image.flipVert, Nat.mul_comm] using this
    · have := length_flatten_grid img.width img.height fun row col =>
        img.pixels.getD (img.width * (img.height - col - 1) + row) Color.transparent
      simpa [Image.rotateCw, Nat.mul_comm] using this
    · have := length_flatten_grid img.width img.height fun row col =>
        img.pixels.getD (img.width * col + (img.width - row - 1)) Color.transparent
      simpa [Image.rotateCcw, Nat.mul_comm] using this
  · intro img nw nh hlt
    unfold Image.crop
    have hlt' : nw * nh < 4294967296 := by omega
    rw [show ((Image.new nw nh).draw img 0 0).width = nw by rfl,
      show ((Image.new nw nh).draw img 0 0).height = nh by rfl,
      draw_pixels_length]
    simp [Image.new, Nat.mod_eq_of_lt hlt']

/-- Witness for C9 (amended): a successful `read_all` (one 2x1 image)
whose image satisfies the invariant, a non-overflowing `Image::new`, and
a crop to 3x2. -/
theorem claim_C9_amended_witness :
    ((Image.new 2 1).pixels.length =
      (Image.new 2 1).width * (Image.new 2 1).height) ∧
    (∀ img ∈ [{ width := 2, height := 1, pixels := [Color.transparent, Color.gray],
                tag := [], metadata := [] : Image }],
      img.pixels.length = img.width * img.height) ∧
    (((Image.new 1 1).crop 3 2).pixels.length =
      ((Image.new 1 1).crop 3 2).width * ((Image.new 1 1).crop 3 2).height) := by
  refine ⟨claim_C9_amended.2.1 2 1 (by norm_num), ?_, claim_C9_amended.2.2.2.2 (Image.new 1 1) 3 2 (by norm_num)⟩
  exact claim_C9_amended.2.2.1 (strBytes "ahi0 w2 h1 n1\n\n0E\n") [] _ (by rfl)

/-- C3 counterexample: the RGBA value (1,2,3,0) is reachable from the
8-digit field `01020300`, but the encoder emits the empty field for every
alpha-0 value, and the empty field decodes to (0,0,0,0), not (1,2,3,0) —
so the claimed round trip fails for reachable values with alpha 0 and a
non-zero color. -/
theorem claim_C3_counterexample :
    paletteFieldDecode [0, 1, 0, 2, 0, 3, 0, 0] = .ok (1, 2, 3, 0) ∧
    paletteFieldDigits (1, 2, 3, 0) = [] ∧
    paletteFieldDecode (paletteFieldDigits (1, 2, 3, 0)) = .ok (0, 0, 0, 0) ∧
    ((0, 0, 0, 0) : Rgba) ≠ (1, 2, 3, 0) := by decide

/-- The number of hex digits the palette-slot encoder emits, as a
function of the RGBA value (the branch structure of `Palette::write`). -/
theorem paletteFieldDigits_length (r g b a : Nat) :
    (paletteFieldDigits (r, g, b, a)).length =
      if a = 0 then 0
      else if a = 0xff then
        if r = g ∧ g = b then (if r % 0x11 = 0 then 1 else 2)
        else (if r % 0x11 = 0 ∧ g % 0x11 = 0 ∧ b % 0x11 = 0 then 3 else 6)
      else if a % 0x11 = 0 then
        (if r % 0x11 = 0 ∧ g % 0x11 = 0 ∧ b % 0x11 = 0 then 4 else 7)
      else (if r % 0x11 = 0 ∧ g % 0x11 = 0 ∧ b % 0x11 = 0 then 5 else 8) := by
  unfold paletteFieldDigits
  dsimp only
  by_cases h0 : a = 0
  · rw [if_pos h0, if_pos h0]
    rfl
  · rw [if_neg h0, if_neg h0]
    by_cases h255 : a = 0xff
    · rw [if_pos h255, if_pos h255]
      by_cases hgr : r = g ∧ g = b
      · rw [if_pos hgr, if_pos hgr]
        by_cases h17 : r % 0x11 = 0
        · rw [if_pos h17, if_pos h17]
          rfl
        · rw [if_neg h17, if_neg h17]
          rfl
      · rw [if_neg hgr, if_neg hgr]
        by_cases hsh : r % 0x11 = 0 ∧ g % 0x11 = 0 ∧ b % 0x11 = 0
        · rw [if_pos hsh, if_pos hsh]
          rfl
        · rw [if_neg hsh, if_neg hsh]
          rfl
    · rw [if_neg h255, if_neg h255]
      by_cases h17 : a % 0x11 = 0
      · rw [if_pos h17, if_pos h17]
        by_cases hsh : r % 0x11 = 0 ∧ g % 0x11 = 0 ∧ b % 0x11 = 0
        · rw [if_pos hsh, if_pos hsh]
          rfl
        · rw [if_neg hsh, if_neg hsh]
          rfl
      · rw [if_neg h17, if_neg h17]
        by_cases hsh : r % 0x11 = 0 ∧ g % 0x11 = 0 ∧ b % 0x11 = 0
        · rw [if_pos hsh, if_pos hsh]
          rfl
        · rw [if_neg hsh, if_neg hsh]
          rfl

/-- C3 (amended): for every RGBA value (every quadruple is reachable from
some 8-digit field), the encoder never emits more hex digits than any
field that decodes to that value under the digit-count table; and the
decode-encode round trip holds exactly on the values the encoder can
represent — those whose alpha is non-zero, or that are fully transparent
black (0,0,0,0).  For any other alpha-0 value the encoder writes the
empty field, which decodes to (0,0,0,0). -/
theorem claim_C3_amended : ∀ r g b a : Nat, r < 256 → g < 256 → b < 256 → a < 256 →
    (∀ ds, (∀ d ∈ ds, d < 16) → paletteFieldDecode ds = .ok (r, g, b, a) →
      (paletteFieldDigits (r, g, b, a)).length ≤ ds.length) ∧
    (a ≠ 0 ∨ (r = 0 ∧ g = 0 ∧ b = 0) →
      paletteFieldDecode (paletteFieldDigits (r, g, b, a)) = .ok (r, g, b, a)) := by
  intro r g b a hr hg hb ha
  constructor
  · intro ds hds hdec
    match ds with
    | [] =>
      simp only [paletteFieldDecode, Except.ok.injEq, Prod.mk.injEq] at hdec
      obtain ⟨h1, h2, h3, h4⟩ := hdec
      subst h1; subst h2; subst h3; subst h4
      simp [paletteFieldDigits]
    | [d0] =>
      have hd0 := hds d0 (by simp)
      simp only [paletteFieldDecode, Except.ok.injEq, Prod.mk.injEq] at hdec
      obtain ⟨h1, h2, h3, h4⟩ := hdec
      subst h1; subst h2; subst h3; subst h4
      rw [paletteFieldDigits_length]
      simp only [List.length_cons, List.length_nil]
      split_ifs <;> first | omega | (exfalso; simp_all) | simp_all
    | [d0, d1] =>
      have hd0 := hds d0 (by simp)
      have hd1 := hds d1 (by simp)
      simp only [paletteFieldDecode, Except.ok.injEq, Prod.mk.injEq] at hdec
      obtain ⟨h1, h2, h3, h4⟩ := hdec
      subst h1; subst h2; subst h3; subst h4
      rw [paletteFieldDigits_length]
      simp only [List.length_cons, List.length_nil]
      split_ifs <;> first | omega | (exfalso; simp_all) | simp_all
    | [d0, d1, d2] =>
      have hd0 := hds d0 (by simp)
      have hd1 := hds d1 (by simp)
      have hd2 := hds d2 (by simp)
      simp only [paletteFieldDecode, Except.ok.injEq, Prod.mk.injEq] at hdec
      obtain ⟨h1, h2, h3, h4⟩ := hdec
      subst h1; subst h2; subst h3; subst h4
      rw [paletteFieldDigits_length]
      simp only [List.length_cons, List.length_nil]
      split_ifs <;> first | omega | (exfalso; simp_all) | simp_all
    | [d0, d1, d2, d3] =>
      have hd0 := hds d0 (by simp)
      have hd1 := hds d1 (by simp)
      have hd2 := hds d2 (by simp)
      have hd3 := hds d3 (by simp)
      simp only [paletteFieldDecode, Except.ok.injEq, Prod.mk.injEq] at hdec
      obtain ⟨h1, h2, h3, h4⟩ := hdec
      subst h1; subst h2; subst h3; subst h4
      rw [paletteFieldDigits_length]
      simp only [List.length_cons, List.length_nil]
      split_ifs <;> first | omega | (exfalso; simp_all) | simp_all
    | [d0, d1, d2, d3, d4] =>
      have hd0 := hds d0 (by simp)
      have hd1 := hds d1 (by simp)
      have hd2 := hds d2 (by simp)
      have hd3 := hds d3 (by simp)
      have hd4 := hds d4 (by simp)
      simp only [paletteFieldDecode, Except.ok.injEq, Prod.mk.injEq] at hdec
      obtain ⟨h1, h2, h3, h4⟩ := hdec
      subst h1; subst h2; subst h3; subst h4
      rw [paletteFieldDigits_length]
      simp only [List.length_cons, List.length_nil]
      split_ifs <;> first | omega | (exfalso; simp_all) | simp_all
    | [d0, d1, d2, d3, d4, d5] =>
      have hd0 := hds d0 (by simp)
      have hd1 := hds d1 (by simp)
      have hd2 := hds d2 (by simp)
      have hd3 := hds d3 (by simp)
      have hd4 := hds d4 (by simp)
      have hd5 := hds d5 (by simp)
      simp only [paletteFieldDecode, Except.ok.injEq, Prod.mk.injEq] at hdec
      obtain ⟨h1, h2, h3, h4⟩ := hdec
      subst h1; subst h2; subst h3; subst h4
      rw [paletteFieldDigits_length]
      simp only [List.length_cons, List.length_nil]
      split_ifs <;> first | omega | (exfalso; simp_all) | simp_all
    | [d0, d1, d2, d3, d4, d5, d6] =>
      have hd0 := hds d0 (by simp)
      have hd1 := hds d1 (by simp)
      have hd2 := hds d2 (by simp)
      have hd3 := hds d3 (by simp)
      have hd4 := hds d4 (by simp)
      have hd5 := hds d5 (by simp)
      have hd6 := hds d6 (by simp)
      simp only [paletteFieldDecode, Except.ok.injEq, Prod.mk.injEq] at hdec
      obtain ⟨h1, h2, h3, h4⟩ := hdec
      subst h1; subst h2; subst h3; subst h4
      rw [paletteFieldDigits_length]
      simp only [List.length_cons, List.length_nil]
      split_ifs <;> first | omega | (exfalso; simp_all) | simp_all
    | [d0, d1, d2, d3, d4, d5, d6, d7] =>
      simp only [paletteFieldDecode, Except.ok.injEq, Prod.mk.injEq] at hdec
      obtain ⟨h1, h2, h3, h4⟩ := hdec
      subst h1; subst h2; subst h3; subst h4
      rw [paletteFieldDigits_length]
      simp only [List.length_cons, List.length_nil]
      split_ifs <;> first | omega | (exfalso; simp_all) | simp_all
    | d0 :: d1 :: d2 :: d3 :: d4 :: d5 :: d6 :: d7 :: d8 :: rest =>
      exact absurd hdec (by simp [paletteFieldDecode])
  · intro hcanon
    by_cases ha0 : a = 0
    · subst ha0
      rcases hcanon with h | ⟨h1, h2, h3⟩
      · exact absurd rfl h
      · subst h1; subst h2; subst h3
        rfl
    · unfold paletteFieldDigits
      dsimp only
      rw [if_neg ha0]
      by_cases ha255 : a = 0xff
      · rw [if_pos ha255]
        by_cases hgray : r = g ∧ g = b
        · rw [if_pos hgray]
          obtain ⟨hrg, hgb⟩ := hgray
          by_cases h17 : r % 0x11 = 0
          · rw [if_pos h17]
            simp only [paletteFieldDecode, Except.ok.injEq, Prod.mk.injEq]
            omega
          · rw [if_neg h17]
            simp only [paletteFieldDecode, Except.ok.injEq, Prod.mk.injEq]
            omega
        · rw [if_neg hgray]
          by_cases hsh : r % 0x11 = 0 ∧ g % 0x11 = 0 ∧ b % 0x11 = 0
          · rw [if_pos hsh]
            simp only [paletteFieldDecode, Except.ok.injEq, Prod.mk.injEq]
            omega
          · rw [if_neg hsh]
            simp only [paletteFieldDecode, Except.ok.injEq, Prod.mk.injEq]
            omega
      · rw [if_neg ha255]
        by_cases ha17 : a % 0x11 = 0
        · rw [if_pos ha17]
          by_cases hsh : r % 0x11 = 0 ∧ g % 0x11 = 0 ∧ b % 0x11 = 0
          · rw [if_pos hsh]
            simp only [paletteFieldDecode, Except.ok.injEq, Prod.mk.injEq]
            omega
          · rw [if_neg hsh]
            simp only [paletteFieldDecode, Except.ok.injEq, Prod.mk.injEq]
            omega
        · rw [if_neg ha17]
          by_cases hsh : r % 0x11 = 0 ∧ g % 0x11 = 0 ∧ b % 0x11 = 0
          · rw [if_pos hsh]
            simp only [paletteFieldDecode, Except.ok.injEq, Prod.mk.injEq]
            omega
          · rw [if_neg hsh]
            simp only [paletteFieldDecode, Except.ok.injEq, Prod.mk.injEq]
            omega

/-- Witness for C3 (amended) at (0x7f, 0x7f, 0x7f, 0xff): the encoder
emits at most as many digits as the 6-digit field `7F7F7F` that decodes
to it, and the round trip returns the value. -/
theorem claim_C3_amended_witness :
    (paletteFieldDigits (0x7f, 0x7f, 0x7f, 0xff)).length ≤
      ([7, 15, 7, 15, 7, 15] : List Nat).length ∧
    paletteFieldDecode (paletteFieldDigits (0x7f, 0x7f, 0x7f, 0xff)) =
      .ok (0x7f, 0x7f, 0x7f, 0xff) :=
  ⟨(claim_C3_amended 0x7f 0x7f 0x7f 0xff (by norm_num) (by norm_num) (by norm_num)
      (by norm_num)).1 [7, 15, 7, 15, 7, 15] (by decide) (by decide),
   (claim_C3_amended 0x7f 0x7f 0x7f 0xff (by norm_num) (by norm_num) (by norm_num)
      (by norm_num)).2 (by norm_num)⟩

/-- The digit run of one list element, per the claimed grammar: after the
optional sign, only digits may appear before the element's terminator
(`,` or `]`); a further minus is the misplaced-sign error, any other
byte the invalid-byte error, and a magnitude above `0x8000` ends the run
immediately (it can no longer fit in `i16`). -/
def specListDigits (value : Nat) (anyDigits : Bool) :
    List Nat → Except Err ((ListEnd × Nat × Bool) × List Nat)
  | [] => .ok ((.eofEnd, value, anyDigits), [])
  | b :: rest =>
    if b = 93 then .ok ((.rbracket, value, anyDigits), rest)
    else if b = 44 then .ok ((.comma, value, anyDigits), rest)
    else if b = 45 then .error .misplacedListSign
    else if 48 ≤ b ∧ b ≤ 57 then
      let v := value * 10 + (b - 48)
      if v > 0x8000 then .ok ((.overflowBreak, v, true), rest)
      else specListDigits v true rest
    else .error .invalidListByte

theorem specListDigits_eofEnd {value : Nat} {anyD : Bool} {l r : List Nat}
    {value' : Nat} {anyD' : Bool}
    (h : specListDigits value anyD l = .ok ((.eofEnd, value', anyD'), r)) :
    r = [] := by
  induction l generalizing value anyD with
  | nil =>
    simp only [specListDigits, Except.ok.injEq, Prod.mk.injEq] at h
    exact h.2.symm
  | cons b rest ih =>
    simp only [specListDigits] at h
    split at h
    · simp at h
    · split at h
      · simp at h
      · split at h
        · simp at h
        · split at h
          · split at h
            · simp at h
            · exact ih h
          · simp at h

theorem specListDigits_overflow {value : Nat} {anyD : Bool} {l r : List Nat}
    {value' : Nat} {anyD' : Bool}
    (h : specListDigits value anyD l = .ok ((.overflowBreak, value', anyD'), r)) :
    value' > 0x8000 ∧ anyD' = true := by
  induction l generalizing value anyD with
  | nil => simp [specListDigits] at h
  | cons b rest ih =>
    simp only [specListDigits] at h
    split at h
    · simp at h
    · split at h
      · simp at h
      · split at h
        · simp at h
        · split at h
          · split at h
            · simp only [Except.ok.injEq, Prod.mk.injEq, true_and] at h
              obtain ⟨⟨h2, h3⟩, h4⟩ := h
              constructor
              · omega
              · exact h3.symm
            · exact ih h
          · simp at h

/-- How the inner loop of `read_list_of_i16s` repackages the result of
the grammar-side digit scan: the missing-integer check happens at the
element terminator, using whether any element was read before
(`valuesEmpty`), and the sign flag is carried along. -/
def scanRelate (valuesEmpty negative : Bool)
    (res : Except Err ((ListEnd × Nat × Bool) × List Nat)) :
    Except Err ((ListEnd × Bool × Bool × Nat) × List Nat) :=
  match res with
  | .error e => .error e
  | .ok ((kind, value, anyDigits), r) =>
    if anyDigits = false ∧
        (kind = .comma ∨ (kind = .rbracket ∧ valuesEmpty = false)) then
      .error .missingListInteger
    else .ok ((kind, negative, anyDigits, value), r)

/-- The implementation's element scanner agrees with the grammar-side
digit scan in every post-sign state: the sign is already consumed, or a
digit has been read, or the next byte is not a minus. -/
theorem readListIntScan_eq_spec (ve : Bool) :
    ∀ (l : List Nat) (v : Nat) (neg anyD : Bool),
    (neg = true ∨ anyD = true ∨ ∀ r', l ≠ 45 :: r') →
    readListIntScan ve neg anyD v l =
      scanRelate ve neg (specListDigits v anyD l) := by
  intro l
  induction l with
  | nil =>
    intro v neg anyD hcond
    cases anyD <;> rfl
  | cons b rest ih =>
    intro v neg anyD hcond
    by_cases hb93 : b = 93
    · subst hb93
      cases anyD <;> cases ve <;> rfl
    · by_cases hb44 : b = 44
      · subst hb44
        cases anyD <;> rfl
      · by_cases hb45 : b = 45
        · subst hb45
          have hna : neg = true ∨ anyD = true := by
            rcases hcond with h | h | h
            · exact Or.inl h
            · exact Or.inr h
            · exact absurd rfl (h rest)
          rcases hna with h | h
          · subst h
            rfl
          · subst h
            cases neg <;> rfl
        · by_cases hdig : 48 ≤ b ∧ b ≤ 57
          · have hne : ¬(b < 48 ∨ b > 57) := by omega
            have hnor : ¬(b = 93 ∨ b = 44) := by tauto
            simp only [readListIntScan, specListDigits, if_neg hnor, if_neg hb93,
              if_neg hb44, if_neg hb45, if_neg hne, if_pos hdig]
            by_cases hov : v * 10 + (b - 48) > 0x8000
            · simp only [if_pos hov]
              rfl
            · simp only [if_neg hov]
              exact ih _ neg true (Or.inr (Or.inl rfl))
          · have hne : b < 48 ∨ b > 57 := by omega
            have hnor : ¬(b = 93 ∨ b = 44) := by tauto
            simp only [readListIntScan, specListDigits, if_neg hnor, if_neg hb93,
              if_neg hb44, if_neg hb45, if_pos hne, if_neg hdig]
            rfl

/-- The list body of the amended claim C7, grammar-first: at each element
position an optional leading minus is consumed, then a run of digits up
to `,` or `]`; each value must fit in `i16`; after a comma the separator
space is required and the next element follows; `]` at the very first
element position with no digits ends the (empty) list — and, the quirk
the counterexample forces, a lone minus directly before that first `]`
is silently ignored.  `]` or `,` with no digits anywhere else is the
missing-integer error; a digit run cut off by the end of the stream is
an end-of-file error after a digit and the non-terminating loop
(`diverges`) otherwise. -/
def readListSpecElems (values : List Int) : Nat → List Nat →
    Except Err (List Int × List Nat)
  | 0, _ => .error .diverges
  | budget + 1, l =>
    let signed : Bool × List Nat :=
      if l.head? = some 45 then (true, l.tail) else (false, l)
    match specListDigits 0 false signed.2 with
    | .error e => .error e
    | .ok ((kind, value, anyDigits), r) =>
      if kind = .overflowBreak then .error .listIntegerOutOfRange
      else if anyDigits then
        let v : Int := if signed.1 then -(value : Int) else (value : Int)
        if v > 32767 ∨ v < -32768 then .error .listIntegerOutOfRange
        else
          match kind with
          | .rbracket => .ok (values ++ [v], r)
          | .comma =>
            match readExactly [32] r with
            | .error e => .error e
            | .ok (_, r2) => readListSpecElems (values ++ [v]) budget r2
          | _ => .error .eof
      else
        match kind with
        | .rbracket =>
          if values.isEmpty then .ok (values, r) else .error .missingListInteger
        | .comma => .error .missingListInteger
        | _ => .error .diverges

/-- The amended claim C7 as a reference parser: `[`, then the element
grammar of `readListSpecElems`. -/
def readListOfI16sSpec (l : List Nat) : Except Err (List Int × List Nat) :=
  pbind (readExactly [91] l) fun _ l => readListSpecElems [] l.length l

/-- `scanRelate` passes a digit-carrying scan result through unchanged. -/
theorem scanRelate_ok_true (ve ng : Bool) (kind : ListEnd) (value : Nat)
    (r : List Nat) :
    scanRelate ve ng (.ok ((kind, value, true), r)) =
      .ok ((kind, ng, true, value), r) := rfl

/-- The post-scan body of one round of `readListLoop`, over an abstract
digit-scan result. -/
def listLoopBody (budget : Nat) (values : List Int) (ng : Bool)
    (res : Except Err ((ListEnd × Nat × Bool) × List Nat)) :
    Except Err (List Int × List Nat) :=
  match scanRelate values.isEmpty ng res with
  | .error e => Except.error e
  | .ok ((kind, negative, anyDigits, value), r) =>
    let done := kind = ListEnd.rbracket
    if anyDigits then
      let v : Int := if negative then -(value : Int) else (value : Int)
      if v > 32767 ∨ v < -32768 then Except.error Err.listIntegerOutOfRange
      else if ¬done then
        match readExactly [32] r with
        | .error e => Except.error e
        | .ok (_, r2) => readListLoop (values ++ [v]) budget r2
      else Except.ok (values ++ [v], r)
    else if done then Except.ok (values, r)
    else Except.error Err.diverges

/-- The post-scan body of one round of the grammar-side element list, over
an abstract digit-scan result. -/
def listSpecBody (budget : Nat) (values : List Int) (ng : Bool)
    (res : Except Err ((ListEnd × Nat × Bool) × List Nat)) :
    Except Err (List Int × List Nat) :=
  match res with
  | .error e => Except.error e
  | .ok ((kind, value, anyDigits), r) =>
    if kind = .overflowBreak then Except.error Err.listIntegerOutOfRange
    else if anyDigits then
      let v : Int := if ng then -(value : Int) else (value : Int)
      if v > 32767 ∨ v < -32768 then Except.error Err.listIntegerOutOfRange
      else
        match kind with
        | .rbracket => Except.ok (values ++ [v], r)
        | .comma =>
          match readExactly [32] r with
          | .error e => Except.error e
          | .ok (_, r2) => readListSpecElems (values ++ [v]) budget r2
        | _ => Except.error Err.eof
    else
      match kind with
      | .rbracket =>
        if values.isEmpty then Except.ok (values, r)
        else Except.error Err.missingListInteger
      | .comma => Except.error Err.missingListInteger
      | _ => Except.error Err.diverges

/-- One round of the list loop, impl side versus grammar side, for an
arbitrary digit-scan result (with the two structural facts the scan
guarantees: an end-of-stream run leaves nothing behind, and an overflow
break carries a magnitude above `0x8000` with a digit read). -/
theorem listBody_eq (budget : Nat)
    (ih : ∀ (values' : List Int) (l' : List Nat),
      readListLoop values' budget l' = readListSpecElems values' budget l')
    (values : List Int) (ng : Bool)
    (res : Except Err ((ListEnd × Nat × Bool) × List Nat))
    (heof : ∀ value anyD r, res = .ok ((.eofEnd, value, anyD), r) → r = [])
    (hov : ∀ value anyD r, res = .ok ((.overflowBreak, value, anyD), r) →
      value > 0x8000 ∧ anyD = true) :
    listLoopBody budget values ng res = listSpecBody budget values ng res := by
  cases res with
  | error e => rfl
  | ok p =>
    obtain ⟨⟨kind, value, anyD⟩, r⟩ := p
    dsimp only [listLoopBody, listSpecBody]
    cases kind with
    | overflowBreak =>
      obtain ⟨h1, h2⟩ := hov value anyD r rfl
      subst h2
      rw [scanRelate_ok_true]
      cases ng with
      | false =>
        dsimp only
        simp only [reduceIte, reduceCtorEq, eq_self_iff_true, Bool.false_eq_true,
          Bool.true_eq_false, not_false_eq_true, not_true, if_true, if_false]
        rw [if_pos (show (value : Int) > 32767 ∨ (value : Int) < -32768 by omega)]
      | true =>
        dsimp only
        simp only [reduceIte, reduceCtorEq, eq_self_iff_true, Bool.false_eq_true,
          Bool.true_eq_false, not_false_eq_true, not_true, if_true, if_false]
        rw [if_pos (show -(value : Int) > 32767 ∨ -(value : Int) < -32768 by omega)]
    | eofEnd =>
      have hr : r = [] := heof value anyD r rfl
      subst hr
      cases anyD with
      | false => rfl
      | true =>
        rw [scanRelate_ok_true]
        cases ng with
        | false =>
          dsimp only
          simp only [reduceIte, reduceCtorEq, eq_self_iff_true, Bool.false_eq_true,
            Bool.true_eq_false, not_false_eq_true, not_true, if_true, if_false]
          by_cases hrange : (value : Int) > 32767 ∨ (value : Int) < -32768
          · rw [if_pos hrange, if_pos hrange]
          · rw [if_neg hrange, if_neg hrange]
            rfl
        | true =>
          dsimp only
          simp only [reduceIte, reduceCtorEq, eq_self_iff_true, Bool.false_eq_true,
            Bool.true_eq_false, not_false_eq_true, not_true, if_true, if_false]
          by_cases hrange : -(value : Int) > 32767 ∨ -(value : Int) < -32768
          · rw [if_pos hrange, if_pos hrange]
          · rw [if_neg hrange, if_neg hrange]
            rfl
    | comma =>
      cases anyD with
      | false => rfl
      | true =>
        rw [scanRelate_ok_true]
        cases ng with
        | false =>
          dsimp only
          simp only [reduceIte, reduceCtorEq, eq_self_iff_true, Bool.false_eq_true,
            Bool.true_eq_false, not_false_eq_true, not_true, if_true, if_false]
          by_cases hrange : (value : Int) > 32767 ∨ (value : Int) < -32768
          · rw [if_pos hrange, if_pos hrange]
          · rw [if_neg hrange, if_neg hrange]
            cases readExactly [32] r with
            | error e => rfl
            | ok p2 =>
              obtain ⟨u, r2⟩ := p2
              dsimp only
              exact ih (values ++ [(value : Int)]) r2
        | true =>
          dsimp only
          simp only [reduceIte, reduceCtorEq, eq_self_iff_true, Bool.false_eq_true,
            Bool.true_eq_false, not_false_eq_true, not_true, if_true, if_false]
          by_cases hrange : -(value : Int) > 32767 ∨ -(value : Int) < -32768
          · rw [if_pos hrange, if_pos hrange]
          · rw [if_neg hrange, if_neg hrange]
            cases readExactly [32] r with
            | error e => rfl
            | ok p2 =>
              obtain ⟨u, r2⟩ := p2
              dsimp only
              exact ih (values ++ [-(value : Int)]) r2
    | rbracket =>
      cases anyD with
      | false =>
        cases hve : values.isEmpty with
        | false => rfl
        | true => rfl
      | true =>
        rw [scanRelate_ok_true]
        cases ng with
        | false =>
          dsimp only
          simp only [reduceIte, reduceCtorEq, eq_self_iff_true, Bool.false_eq_true,
            Bool.true_eq_false, not_false_eq_true, not_true, if_true, if_false]
        | true =>
          dsimp only
          simp only [reduceIte, reduceCtorEq, eq_self_iff_true, Bool.false_eq_true,
            Bool.true_eq_false, not_false_eq_true, not_true, if_true, if_false]

theorem readListLoop_eq_spec :
    ∀ (budget : Nat) (values : List Int) (l : List Nat),
    readListLoop values budget l = readListSpecElems values budget l := by
  intro budget
  induction budget with
  | zero => intro values l; rfl
  | succ budget ih =>
    intro values l
    have hstep :
        readListLoop values (budget + 1) l =
          listLoopBody budget values
            (if l.head? = some 45 then true else false)
            (specListDigits 0 false
              (if l.head? = some 45 then l.tail else l)) := by
      match l with
      | [] =>
        simp only [readListLoop, listLoopBody]
        rw [readListIntScan_eq_spec values.isEmpty [] 0 false false
          (Or.inr (Or.inr (by simp)))]
        rfl
      | 45 :: tail =>
        simp only [readListLoop, listLoopBody]
        rw [show readListIntScan values.isEmpty false false 0 (45 :: tail) =
          readListIntScan values.isEmpty true false 0 tail from rfl]
        rw [readListIntScan_eq_spec values.isEmpty tail 0 true false (Or.inl rfl)]
        rfl
      | b :: tail =>
        by_cases hb : b = 45
        · subst hb
          simp only [readListLoop, listLoopBody]
          rw [show readListIntScan values.isEmpty false false 0 (45 :: tail) =
            readListIntScan values.isEmpty true false 0 tail from rfl]
          rw [readListIntScan_eq_spec values.isEmpty tail 0 true false (Or.inl rfl)]
          rfl
        · have hcond : ((b :: tail).head? = some 45) = False := by simp [hb]
          simp only [readListLoop, listLoopBody]
          rw [readListIntScan_eq_spec values.isEmpty (b :: tail) 0 false false
            (Or.inr (Or.inr (by
              intro r' hc
              injection hc with hh1 hh2
              exact hb hh1)))]
          simp only [hcond, if_false]
    rw [hstep]
    rw [show readListSpecElems values (budget + 1) l =
      listSpecBody budget values
        (if l.head? = some 45 then true else false)
        (specListDigits 0 false
          (if l.head? = some 45 then l.tail else l)) from by
      simp only [readListSpecElems, listSpecBody]
      by_cases hh : l.head? = some 45 <;> simp [hh]]
    exact listBody_eq budget ih values
      (if l.head? = some 45 then true else false)
      (specListDigits 0 false (if l.head? = some 45 then l.tail else l))
      (fun _ _ _ h => specListDigits_eofEnd h)
      (fun _ _ _ h => specListDigits_overflow h)

/-- Claim C7, counterexample: the input string consisting of a left
bracket, a minus sign and a right bracket is not of the claimed form (a
minus sign with no following digits should fail with an error), yet
`read_list_of_i16s` accepts it and returns the empty list: after the sign
is consumed the closing bracket ends the scan with no digits read, and the
`values.is_empty` check then treats the list as the empty list `[]`. -/
theorem claim_C7_counterexample :
    readListOfI16s (strBytes "[-]") = .ok ([], []) := rfl

/-- Claim C7, amended: `read_list_of_i16s` behaves exactly as the
reference parser `readListOfI16sSpec`, which accepts `[` then
comma-and-space-separated signed decimal integers then `]`, each integer
required to fit in `i16` (out of range fails with
`ListIntegerOutOfRange`), with two deviations from the claim: a single
minus sign directly before the closing bracket of an otherwise empty list
is accepted as the empty list, and an input that ends while an element is
expected makes the loop spin without progress (modelled `Err.diverges`)
instead of failing cleanly. -/
theorem claim_C7_amended (l : List Nat) :
    readListOfI16s l = readListOfI16sSpec l := by
  unfold readListOfI16s readListOfI16sSpec
  cases readExactly [91] l with
  | error e => rfl
  | ok p =>
    obtain ⟨u, r⟩ := p
    simp only [pbind_ok]
    exact readListLoop_eq_spec r.length [] r

/-- The `global_size` scan succeeds exactly when all images share one
width and height. -/
theorem globalSize_isSome_iff (c : Collection) :
    c.globalSize.isSome = true ↔
      ∀ i ∈ c.images, ∀ j ∈ c.images,
        i.width = j.width ∧ i.height = j.height := by
  unfold Collection.globalSize
  cases himg : c.images with
  | nil => simp
  | cons img rest =>
    simp only [List.all_eq_true, Bool.and_eq_true, decide_eq_true_eq]
    constructor
    · intro hs i hi j hj
      by_cases hall : ∀ x ∈ img :: rest, x.width = img.width ∧ x.height = img.height
      · obtain ⟨hiw, hih⟩ := hall i hi
        obtain ⟨hjw, hjh⟩ := hall j hj
        exact ⟨hiw.trans hjw.symm, hih.trans hjh.symm⟩
      · exfalso
        rw [if_neg (by
          intro hc
          exact hall fun x hx => hc x hx)] at hs
        exact Bool.noConfusion hs
    · intro hp
      rw [if_pos (fun x hx => hp x hx img (List.mem_cons_self img rest))]
      rfl

/-- An empty image list gives global size `(0, 0)`. -/
theorem globalSize_empty (c : Collection) (h : c.images = []) :
    c.globalSize = some (0, 0) := by
  unfold Collection.globalSize
  rw [h]

/-- `has_string_tags` is false exactly when every tag is empty. -/
theorem hasStringTags_eq_false_iff (c : Collection) :
    c.hasStringTags = false ↔ ∀ i ∈ c.images, i.tag = [] := by
  unfold Collection.hasStringTags
  simp [List.any_eq_true, List.isEmpty_iff]

/-- `has_metadata` is false exactly when every metadata list is empty. -/
theorem hasMetadata_eq_false_iff (c : Collection) :
    c.hasMetadata = false ↔ ∀ i ∈ c.images, i.metadata = [] := by
  unfold Collection.hasMetadata
  simp [List.any_eq_true, List.isEmpty_iff]

/-- The three flag bits assemble by addition (they are disjoint). -/
theorem flags_or_eq_add (a b c : Bool) :
    ((if a then 1 else 0) ||| (if b then 2 else 0) ||| (if c then 4 else 0))
      = (if a then 1 else 0) + (if b then 2 else 0) + (if c then 4 else 0) := by
  cases a <;> cases b <;> cases c <;> rfl

/-- Claim C2: `Collection::write` emits a version-0 header iff the palette
list is empty, all images share one width and height (an empty image list
counting as global size `(0, 0)`), no image has a non-empty tag and no
image has non-empty metadata; otherwise it emits a version-1 header whose
flag bit 0 is set iff the sizes differ, bit 1 iff some tag is non-empty,
bit 2 iff some metadata is non-empty, and whose global `w`/`h` fields
appear iff all images share one size. -/
theorem claim_C2 (c : Collection) :
    (c.globalSize.isSome = true ↔
      ∀ i ∈ c.images, ∀ j ∈ c.images,
        i.width = j.width ∧ i.height = j.height) ∧
    (c.images = [] → c.globalSize = some (0, 0)) ∧
    (c.hasStringTags = false ↔ ∀ i ∈ c.images, i.tag = []) ∧
    (c.hasMetadata = false ↔ ∀ i ∈ c.images, i.metadata = []) ∧
    (if c.palettes = [] ∧ c.globalSize.isSome = true ∧
        c.hasStringTags = false ∧ c.hasMetadata = false then
      ∃ w h rest, c.globalSize = some (w, h) ∧
        Collection.write c =
          strBytes "ahi0 w" ++ natToDecBytes w ++ strBytes " h" ++
            natToDecBytes h ++ strBytes " n" ++
            natToDecBytes c.images.length ++ [10] ++ rest
     else
      ∃ rest,
        Collection.write c =
          strBytes "ahi1 f" ++
            natToHexBytesU
              ((if c.globalSize.isNone then 1 else 0) +
               (if c.hasStringTags then 2 else 0) +
               (if c.hasMetadata then 4 else 0)) ++
            strBytes " p" ++ natToDecBytes c.palettes.length ++
            strBytes " i" ++ natToDecBytes c.images.length ++
            (match c.globalSize with
             | some (w, h) => strBytes " w" ++ natToDecBytes w ++
                 strBytes " h" ++ natToDecBytes h
             | none => []) ++ [10] ++ rest) := by
  refine ⟨globalSize_isSome_iff c, globalSize_empty c,
    hasStringTags_eq_false_iff c, hasMetadata_eq_false_iff c, ?_⟩
  by_cases hc : c.palettes = [] ∧ c.globalSize.isSome = true ∧
    c.hasStringTags = false ∧ c.hasMetadata = false
  · rw [if_pos hc]
    obtain ⟨hpal, hgs, htag, hmeta⟩ := hc
    obtain ⟨⟨w, h⟩, hwh⟩ := Option.isSome_iff_exists.mp hgs
    refine ⟨w, h, ?_, hwh, ?_⟩
    · exact (if c.palettes.isEmpty then [] else
        [10] ++ (c.palettes.map paletteWriteBytes).flatten) ++
        (c.images.map fun img =>
          [10] ++
          (if c.hasStringTags then
            [34] ++ (img.tag.map charEscapeDefault).flatten ++ [34, 10]
           else []) ++
          (if c.hasMetadata then
            [91] ++ metadataBody img.metadata ++ [93, 10] else []) ++
          (if c.globalSize.isNone then
            strBytes "w" ++ natToDecBytes img.width ++ strBytes " h" ++
              natToDecBytes img.height ++ [10]
           else []) ++
          img.writeBytes).flatten
    · unfold Collection.write
      dsimp only
      rw [if_pos (by
        rw [hpal, htag, hmeta, hgs]
        rfl)]
      rw [hwh]
      simp only [List.append_assoc]
  · rw [if_neg hc]
    refine ⟨(if c.palettes.isEmpty then [] else
      [10] ++ (c.palettes.map paletteWriteBytes).flatten) ++
      (c.images.map fun img =>
        [10] ++
        (if c.hasStringTags then
          [34] ++ (img.tag.map charEscapeDefault).flatten ++ [34, 10]
         else []) ++
        (if c.hasMetadata then
          [91] ++ metadataBody img.metadata ++ [93, 10] else []) ++
        (if c.globalSize.isNone then
          strBytes "w" ++ natToDecBytes img.width ++ strBytes " h" ++
            natToDecBytes img.height ++ [10]
         else []) ++
        img.writeBytes).flatten, ?_⟩
    unfold Collection.write
    dsimp only
    rw [if_neg (by
      intro hcond
      apply hc
      simp only [Bool.and_eq_true, Bool.not_eq_true', List.isEmpty_iff] at hcond
      exact ⟨hcond.1.1.1, hcond.1.1.2, hcond.1.2, hcond.2⟩)]
    rw [flags_or_eq_add]
    simp only [List.append_assoc]

/-- Every byte the decimal renderer emits is an ASCII digit. -/
theorem natToDecBytesAux_digits (budget : Nat) :
    ∀ (n : Nat), ∀ d ∈ natToDecBytesAux budget n, 48 ≤ d ∧ d ≤ 57 := by
  induction budget with
  | zero =>
    intro n d hd
    simp [natToDecBytesAux] at hd
  | succ budget ih =>
    intro n d hd
    unfold natToDecBytesAux at hd
    split at hd
    · simp only [List.mem_singleton] at hd
      omega
    · simp only [List.mem_append, List.mem_singleton] at hd
      rcases hd with hd | hd
      · exact ih _ d hd
      · have : n % 10 < 10 := Nat.mod_lt _ (by norm_num)
        omega

/-- With budget to spare, the decimal renderer emits at least one digit. -/
theorem natToDecBytesAux_ne_nil (budget n : Nat) (h : n < budget) :
    natToDecBytesAux budget n ≠ [] := by
  cases budget with
  | zero => omega
  | succ b =>
    unfold natToDecBytesAux
    split
    · simp
    · simp

/-- Folding the rendered decimal digits back through the accumulator
recovers the number. -/
theorem natToDecBytesAux_val (budget : Nat) :
    ∀ (n acc : Nat), n < budget →
      decValueFrom acc (natToDecBytesAux budget n) =
        acc * 10 ^ (natToDecBytesAux budget n).length + n := by
  induction budget with
  | zero => intro n acc h; omega
  | succ budget ih =>
    intro n acc h
    unfold natToDecBytesAux
    split
    · simp only [decValueFrom_cons, decValueFrom_nil, List.length_cons,
        List.length_nil, pow_one]
      omega
    · have hdiv : n / 10 < budget := by omega
      rw [decValueFrom_append, ih (n / 10) acc hdiv]
      simp only [decValueFrom_cons, decValueFrom_nil, List.length_append,
        List.length_cons, List.length_nil]
      have h1 : (acc * 10 ^ (natToDecBytesAux budget (n / 10)).length + n / 10)
            * 10 + (48 + n % 10 - 48) =
          acc * (10 ^ (natToDecBytesAux budget (n / 10)).length * 10) +
            (n / 10 * 10 + n % 10) := by
        have : 48 + n % 10 - 48 = n % 10 := by omega
        rw [this]
        ring
      rw [h1]
      have h2 : n / 10 * 10 + n % 10 = n := by omega
      rw [h2, ← pow_succ]

theorem natToDecBytes_digits (n : Nat) :
    ∀ d ∈ natToDecBytes n, 48 ≤ d ∧ d ≤ 57 :=
  natToDecBytesAux_digits (n + 1) n

theorem natToDecBytes_ne_nil (n : Nat) : natToDecBytes n ≠ [] :=
  natToDecBytesAux_ne_nil (n + 1) n (by omega)

theorem natToDecBytes_val (n : Nat) : decValueFrom 0 (natToDecBytes n) = n := by
  have := natToDecBytesAux_val (n + 1) n 0 (by omega)
  simpa [natToDecBytes] using this

/-- `read_exactly` succeeds on its own literal. -/
theorem readExactly_front (e rest : List Nat) :
    readExactly e (e ++ rest) = .ok ((), rest) := by
  unfold readExactly
  rw [if_neg (by simp), if_pos (by rw [List.take_left]), List.drop_left]

/-- `read_header_uint` on a rendered decimal followed by a low terminator
byte (space or newline). -/
theorem readHeaderUint_dec (t n : Nat) (rest : List Nat) (hn : n ≤ 0xFFFF)
    (ht : t < 48) :
    readHeaderUint t (natToDecBytes n ++ t :: rest) = .ok (n, rest) := by
  have hds := natToDecBytes_digits n
  have htn : t ∉ natToDecBytes n := fun hc => by have := hds t hc; omega
  unfold readHeaderUint
  rw [readHeaderInt_digits t _ rest hds htn (natToDecBytes_ne_nil n)
    (by rw [natToDecBytes_val]; exact hn)]
  rw [natToDecBytes_val]
  simp

/-- The uppercase hex byte of a digit decodes back to the digit. -/
theorem hexVal_hexByteU (d : Nat) (h : d < 16) : hexVal (hexByteU d) = d := by
  unfold hexVal hexByteU
  split_ifs <;> omega

/-- The lowercase hex byte of a digit decodes back to the digit. -/
theorem hexVal_hexByteL (d : Nat) (h : d < 16) : hexVal (hexByteL d) = d := by
  unfold hexVal hexByteL
  split_ifs <;> omega

theorem isHexDigitByte_hexByteU (d : Nat) (h : d < 16) :
    isHexDigitByte (hexByteU d) := by
  unfold isHexDigitByte hexByteU
  split_ifs <;> omega

theorem isHexDigitByte_hexByteL (d : Nat) (h : d < 16) :
    isHexDigitByte (hexByteL d) := by
  unfold isHexDigitByte hexByteL
  split_ifs <;> omega

/-- Every byte the hex renderer emits is a digit image under `digitByte`
of a value below 16. -/
theorem natToHexBytesAux_mem (db : Nat → Nat) (budget : Nat) :
    ∀ (n : Nat), ∀ x ∈ natToHexBytesAux db budget n, ∃ d, d < 16 ∧ x = db d := by
  induction budget with
  | zero =>
    intro n x hx
    simp [natToHexBytesAux] at hx
  | succ budget ih =>
    intro n x hx
    unfold natToHexBytesAux at hx
    split at hx
    · simp only [List.mem_singleton] at hx
      exact ⟨n, by omega, hx⟩
    · simp only [List.mem_append, List.mem_singleton] at hx
      rcases hx with hx | hx
      · exact ih _ x hx
      · exact ⟨n % 16, Nat.mod_lt _ (by norm_num), hx⟩

theorem natToHexBytesAux_ne_nil (db : Nat → Nat) (budget n : Nat)
    (h : n < budget) : natToHexBytesAux db budget n ≠ [] := by
  cases budget with
  | zero => omega
  | succ b =>
    unfold natToHexBytesAux
    split
    · simp
    · simp

/-- Folding the rendered hex digits back recovers the number, provided the
digit map is inverted by `hexVal`. -/
theorem natToHexBytesAux_val (db : Nat → Nat)
    (hdb : ∀ d, d < 16 → hexVal (db d) = d) (budget : Nat) :
    ∀ (n acc : Nat), n < budget →
      ((natToHexBytesAux db budget n).map hexVal).foldl
          (fun v d => v * 0x10 + d) acc =
        acc * 16 ^ (natToHexBytesAux db budget n).length + n := by
  induction budget with
  | zero => intro n acc h; omega
  | succ budget ih =>
    intro n acc h
    unfold natToHexBytesAux
    split
    · simp only [List.map_cons, List.map_nil, List.foldl_cons, List.foldl_nil,
        List.length_cons, List.length_nil, pow_one]
      rw [hdb n (by omega)]
      norm_num
    · have hdiv : n / 16 < budget := by omega
      rw [List.map_append, List.foldl_append, ih (n / 16) acc hdiv]
      simp only [List.map_cons, List.map_nil, List.foldl_cons, List.foldl_nil,
        List.length_append, List.length_cons, List.length_nil]
      rw [hdb (n % 16) (Nat.mod_lt _ (by norm_num))]
      have h1 : (acc * 16 ^ (natToHexBytesAux db budget (n / 16)).length + n / 16)
            * 0x10 + n % 16 =
          acc * (16 ^ (natToHexBytesAux db budget (n / 16)).length * 16) +
            (n / 16 * 16 + n % 16) := by ring
      rw [h1]
      have h2 : n / 16 * 16 + n % 16 = n := by omega
      rw [h2, ← pow_succ]

/-- Digit-count bound for the hex renderer. -/
theorem natToHexBytesAux_length (db : Nat → Nat) (budget : Nat) :
    ∀ (n k : Nat), n < budget → n < 16 ^ (k + 1) →
      (natToHexBytesAux db budget n).length ≤ k + 1 := by
  induction budget with
  | zero => intro n k h _; omega
  | succ budget ih =>
    intro n k h hk
    unfold natToHexBytesAux
    split
    · simp only [List.length_cons, List.length_nil]
      omega
    · have hdiv : n / 16 < budget := by omega
      cases k with
      | zero =>
        exfalso
        norm_num at hk
        omega
      | succ k =>
        have hk' : n / 16 < 16 ^ (k + 1) := by
          have h16 : 0 < (16 : Nat) := by norm_num
          rw [Nat.div_lt_iff_lt_mul h16]
          calc n < 16 ^ (k + 1 + 1) := hk
          _ = 16 ^ (k + 1) * 16 := by rw [pow_succ]
        have := ih (n / 16) k hdiv hk'
        simp only [List.length_append, List.length_cons, List.length_nil]
        omega

/-- A small number renders as its single hex digit. -/
theorem natToHexBytesU_small (n : Nat) (h : n < 16) :
    natToHexBytesU n = [hexByteU n] := by
  unfold natToHexBytesU natToHexBytesAux
  rw [if_pos h]

/-- `read_char_escape` inverts `escape_default` on every legal Unicode
scalar value (inside a double-quoted string). -/
theorem readCharEscape_escape (ch : Nat)
    (hch : ch < 0x110000 ∧ ¬(0xD800 ≤ ch ∧ ch ≤ 0xDFFF)) (rest : List Nat) :
    readCharEscape 34 (charEscapeDefault ch ++ rest) = .ok (some ch, rest) := by
  unfold charEscapeDefault
  by_cases h9 : ch = 9
  · subst h9; rfl
  · rw [if_neg h9]
    by_cases h13 : ch = 13
    · subst h13; rfl
    · rw [if_neg h13]
      by_cases h10 : ch = 10
      · subst h10; rfl
      · rw [if_neg h10]
        by_cases h92 : ch = 92
        · subst h92; rfl
        · rw [if_neg h92]
          by_cases h39 : ch = 39
          · subst h39; rfl
          · rw [if_neg h39]
            by_cases h34 : ch = 34
            · subst h34; rfl
            · rw [if_neg h34]
              by_cases hprint : 32 ≤ ch ∧ ch ≤ 126
              · rw [if_pos hprint]
                show readCharEscape 34 (ch :: rest) = _
                unfold readCharEscape
                dsimp only
                rw [if_neg h34, if_neg h92,
                  if_neg (show ¬(ch < 32 ∨ ch > 126) by omega)]
              · rw [if_neg hprint]
                have hds : ∀ b ∈ natToHexBytesL ch, isHexDigitByte b := by
                  intro b hb
                  obtain ⟨d, hd, hbe⟩ :=
                    natToHexBytesAux_mem hexByteL (ch + 1) ch b hb
                  subst hbe
                  exact isHexDigitByte_hexByteL d hd
                have h125 : (125 : Nat) ∉ natToHexBytesL ch := by
                  intro hc
                  obtain ⟨d, hd, hbe⟩ :=
                    natToHexBytesAux_mem hexByteL (ch + 1) ch 125 hc
                  unfold hexByteL at hbe
                  split_ifs at hbe <;> omega
                have hne : natToHexBytesL ch ≠ [] :=
                  natToHexBytesAux_ne_nil hexByteL (ch + 1) ch (by omega)
                have hlen : (natToHexBytesL ch).length ≤ 8 := by
                  have h6 := natToHexBytesAux_length hexByteL (ch + 1) ch 5
                    (by omega) (by norm_num; omega)
                  unfold natToHexBytesL
                  omega
                have hval : hexFold ((natToHexBytesL ch).map hexVal) = ch := by
                  have := natToHexBytesAux_val hexByteL hexVal_hexByteL
                    (ch + 1) ch 0 (by omega)
                  simpa [hexFold, natToHexBytesL] using this
                show readCharEscape 34
                  ((92 :: 117 :: 123 :: (natToHexBytesL ch ++ [125])) ++ rest) = _
                have hsplit :
                    (92 :: 117 :: 123 :: (natToHexBytesL ch ++ [125])) ++ rest =
                      92 :: 117 :: 123 :: (natToHexBytesL ch ++ 125 :: rest) := by
                  simp
                rw [hsplit]
                unfold readCharEscape
                dsimp only
                norm_num
                rw [show readExactly [123] (123 :: (natToHexBytesL ch ++ 125 :: rest)) =
                  .ok ((), natToHexBytesL ch ++ 125 :: rest) from
                  readExactly_front [123] _]
                simp only [pbind_ok]
                rw [readHexU32_append 125 (natToHexBytesL ch) rest hds h125 hne hlen]
                simp only [pbind_ok, hval]
                rw [show charFromU32 ch = some ch from by
                  unfold charFromU32
                  rw [if_neg (by omega)]]

theorem charEscapeDefault_ne_nil (ch : Nat) : charEscapeDefault ch ≠ [] := by
  unfold charEscapeDefault
  split_ifs <;> simp

/-- The escaped rendering of a tag, closed by the quote, reads back as the
tag (given enough budget: one step per character plus the close). -/
theorem readQuotedStringAux_escaped (tag : List Nat)
    (hWF : ∀ ch ∈ tag, ch < 0x110000 ∧ ¬(0xD800 ≤ ch ∧ ch ≤ 0xDFFF)) :
    ∀ (budget : Nat) (rest : List Nat), tag.length + 1 ≤ budget →
      readQuotedStringAux 34 budget
        ((tag.map charEscapeDefault).flatten ++ 34 :: rest) = .ok (tag, rest) := by
  induction tag with
  | nil =>
    intro budget rest hb
    cases budget with
    | zero => omega
    | succ b => rfl
  | cons ch tl ih =>
    intro budget rest hb
    cases budget with
    | zero =>
      simp only [List.length_cons] at hb
      omega
    | succ b =>
      simp only [List.map_cons, List.flatten_cons, List.append_assoc]
      unfold readQuotedStringAux
      rw [readCharEscape_escape ch (hWF ch (by simp)) _]
      dsimp only
      rw [ih (fun c hc => hWF c (by simp [hc])) b rest
        (by simp only [List.length_cons] at hb; omega)]

/-- Each escaped character is at least one byte. -/
theorem escaped_flatten_length (tag : List Nat) :
    tag.length ≤ (tag.map charEscapeDefault).flatten.length := by
  induction tag with
  | nil => simp
  | cons ch tl ih =>
    simp only [List.map_cons, List.flatten_cons, List.length_append,
      List.length_cons]
    have : 1 ≤ (charEscapeDefault ch).length := by
      cases hc : charEscapeDefault ch with
      | nil => exact absurd hc (charEscapeDefault_ne_nil ch)
      | cons x xs => simp
    omega

/-- `read_quoted_string` inverts the writer's `"..."` tag line prefix. -/
theorem readQuotedString_escaped (tag : List Nat)
    (hWF : ∀ ch ∈ tag, ch < 0x110000 ∧ ¬(0xD800 ≤ ch ∧ ch ≤ 0xDFFF))
    (rest : List Nat) :
    readQuotedString
        (34 :: ((tag.map charEscapeDefault).flatten ++ 34 :: rest)) =
      .ok (tag, rest) := by
  unfold readQuotedString
  rw [show (34 : Nat) :: ((tag.map charEscapeDefault).flatten ++ 34 :: rest) =
    [34] ++ ((tag.map charEscapeDefault).flatten ++ 34 :: rest) from rfl]
  rw [readExactly_front [34] _]
  simp only [pbind_ok]
  refine readQuotedStringAux_escaped tag hWF _ rest ?_
  have h1 := escaped_flatten_length tag
  simp only [List.length_append, List.length_cons]
  omega

/-- A maximal digit run before a `,`/`]` terminator is consumed by the
list-element scanner and yields the accumulated magnitude. -/
theorem readListIntScan_digits (ve neg : Bool) :
    ∀ (ds : List Nat) (anyD : Bool) (acc t : Nat) (r : List Nat),
      (∀ b ∈ ds, 48 ≤ b ∧ b ≤ 57) → (t = 44 ∨ t = 93) →
      decValueFrom acc ds ≤ 0x8000 → (anyD = true ∨ ds ≠ []) →
      readListIntScan ve neg anyD acc (ds ++ t :: r) =
        .ok ((if t = 93 then .rbracket else .comma, neg, true,
          decValueFrom acc ds), r) := by
  intro ds
  induction ds with
  | nil =>
    intro anyD acc t r _ ht _ hstart
    have ha : anyD = true := by
      rcases hstart with h | h
      · exact h
      · exact absurd rfl h
    subst ha
    simp only [List.nil_append, readListIntScan]
    rw [if_pos (by omega)]
    simp only [Bool.not_true, Bool.false_and, Bool.false_eq_true, if_false]
    rfl
  | cons b ds ih =>
    intro anyD acc t r hds ht hv hstart
    have hb := hds b (by simp)
    have hbt : ¬(b = 93 ∨ b = 44) := by omega
    have hbm : b ≠ 45 := by omega
    have hnd : ¬(b < 48 ∨ b > 57) := by omega
    simp only [List.cons_append, readListIntScan, if_neg hbt, if_neg hbm,
      if_neg hnd]
    have hv' : decValueFrom (acc * 10 + (b - 48)) ds ≤ 0x8000 := by
      simpa using hv
    have hle : acc * 10 + (b - 48) ≤ 0x8000 :=
      le_trans (le_decValueFrom _ _) hv'
    rw [if_neg (show ¬(acc * 10 + (b - 48) > 0x8000) by omega)]
    simp only [List.append_eq]
    rw [ih true (acc * 10 + (b - 48)) t r (fun d hd => hds d (by simp [hd]))
      ht hv' (Or.inl rfl)]
    simp

theorem intToDecBytes_ne_nil (v : Int) : intToDecBytes v ≠ [] := by
  unfold intToDecBytes
  split
  · simp
  · exact natToDecBytes_ne_nil _

/-- The tail rendering of a metadata list with at least two elements. -/
theorem metadataBody_cons₂ (v w : Int) (tl : List Int) :
    metadataBody (v :: w :: tl) =
      intToDecBytes v ++ 44 :: 32 :: metadataBody (w :: tl) := by
  simp [metadataBody, show strBytes ", " = [44, 32] from rfl]

/-- The rendered list body is at least one byte per element. -/
theorem metadataBody_length (md : List Int) :
    md.length ≤ (metadataBody md).length := by
  induction md with
  | nil => simp [metadataBody]
  | cons v tl ih =>
    cases tl with
    | nil =>
      have h1 : 1 ≤ (intToDecBytes v).length := by
        cases hc : intToDecBytes v with
        | nil => exact absurd hc (intToDecBytes_ne_nil v)
        | cons x xs => simp
      simp only [metadataBody, List.map_nil, List.flatten_nil, List.append_nil,
        List.length_cons, List.length_nil]
      omega
    | cons w tl2 =>
      rw [metadataBody_cons₂]
      have h1 : 1 ≤ (intToDecBytes v).length := by
        cases hc : intToDecBytes v with
        | nil => exact absurd hc (intToDecBytes_ne_nil v)
        | cons x xs => simp
      simp only [List.length_append, List.length_cons] at *
      omega

/-- One element's bytes followed by its terminator, through the scanner:
the sign is honoured and the magnitude recovered. -/
theorem readListIntScan_int (ve : Bool) (v : Int)
    (hv : -32768 ≤ v ∧ v ≤ 32767) (t : Nat) (ht : t = 44 ∨ t = 93)
    (r : List Nat) :
    readListIntScan ve false false 0 (intToDecBytes v ++ t :: r) =
      .ok ((if t = 93 then .rbracket else .comma,
        decide (v < 0), true, v.natAbs), r) := by
  by_cases hneg : v < 0
  · rw [show intToDecBytes v = 45 :: natToDecBytes (-v).toNat from by
      unfold intToDecBytes; rw [if_pos hneg]]
    have hstep : readListIntScan ve false false 0
        ((45 :: natToDecBytes (-v).toNat) ++ t :: r) =
        readListIntScan ve true false 0 (natToDecBytes (-v).toNat ++ t :: r) :=
      rfl
    rw [hstep]
    rw [readListIntScan_digits ve true (natToDecBytes (-v).toNat) false 0 t r
      (natToDecBytes_digits _) ht
      (by rw [natToDecBytes_val]; omega) (Or.inr (natToDecBytes_ne_nil _))]
    rw [natToDecBytes_val]
    have h1 : decide (v < 0) = true := by simp [hneg]
    have h2 : (-v).toNat = v.natAbs := by omega
    rw [h1, h2]
  · rw [show intToDecBytes v = natToDecBytes v.toNat from by
      unfold intToDecBytes; rw [if_neg hneg]]
    rw [readListIntScan_digits ve false (natToDecBytes v.toNat) false 0 t r
      (natToDecBytes_digits _) ht
      (by rw [natToDecBytes_val]; omega) (Or.inr (natToDecBytes_ne_nil _))]
    rw [natToDecBytes_val]
    have h1 : decide (v < 0) = false := by simp [hneg]
    have h2 : v.toNat = v.natAbs := by omega
    rw [h1, h2]

/-- The list loop consumes a non-empty rendered element list up to the
closing bracket and appends the elements in order. -/
theorem readListLoop_elems (md : List Int) (hne : md ≠ [])
    (hmd : ∀ v ∈ md, -32768 ≤ v ∧ v ≤ 32767) :
    ∀ (values : List Int) (budget : Nat) (rest : List Nat),
      md.length ≤ budget →
      readListLoop values budget (metadataBody md ++ 93 :: rest) =
        .ok (values ++ md, rest) := by
  induction md with
  | nil => exact absurd rfl hne
  | cons v tl ih =>
    intro values budget rest hb
    obtain ⟨b, rfl⟩ : ∃ b, budget = b + 1 := by
      cases budget with
      | zero => simp at hb
      | succ b => exact ⟨b, rfl⟩
    have hv := hmd v (by simp)
    cases tl with
    | nil =>
      simp only [metadataBody, List.map_nil, List.flatten_nil, List.append_nil]
      unfold readListLoop
      rw [readListIntScan_int values.isEmpty v hv 93 (Or.inr rfl) rest]
      dsimp only
      simp only [reduceIte, reduceCtorEq, eq_self_iff_true, if_true]
      by_cases hneg : v < 0
      · rw [if_pos (by simp [hneg] : decide (v < 0) = true)]
        rw [if_neg (show ¬(-(v.natAbs : Int) > 32767 ∨ -(v.natAbs : Int) < -32768)
          by omega)]
        have : -((v.natAbs : Nat) : Int) = v := by omega
        rw [this]
        simp
      · rw [if_neg (by simp [hneg] : ¬ decide (v < 0) = true)]
        rw [if_neg (show ¬((v.natAbs : Int) > 32767 ∨ (v.natAbs : Int) < -32768)
          by omega)]
        have : ((v.natAbs : Nat) : Int) = v := by omega
        rw [this]
        simp
    | cons w tl2 =>
      rw [metadataBody_cons₂]
      simp only [List.append_assoc, List.cons_append]
      unfold readListLoop
      rw [show intToDecBytes v ++ 44 :: 32 :: (metadataBody (w :: tl2) ++ 93 :: rest)
        = intToDecBytes v ++ 44 :: (32 :: (metadataBody (w :: tl2) ++ 93 :: rest))
        from rfl]
      rw [readListIntScan_int values.isEmpty v hv 44 (Or.inl rfl) _]
      dsimp only
      simp only [reduceIte, reduceCtorEq, eq_self_iff_true, if_true,
        Bool.false_eq_true, if_false, not_false_eq_true]
      by_cases hneg : v < 0
      · rw [if_pos (by simp [hneg] : decide (v < 0) = true)]
        rw [if_neg (show ¬(-(v.natAbs : Int) > 32767 ∨ -(v.natAbs : Int) < -32768)
          by omega)]
        rw [show (32 : Nat) :: (metadataBody (w :: tl2) ++ 93 :: rest) =
          [32] ++ (metadataBody (w :: tl2) ++ 93 :: rest) from rfl]
        rw [readExactly_front [32] _]
        simp only [reduceIte, reduceCtorEq, not_false_eq_true, if_true]
        have hvv : -((v.natAbs : Nat) : Int) = v := by omega
        rw [hvv]
        rw [ih (by simp) (fun x hx => hmd x (by simp [hx])) (values ++ [v]) b rest
          (by simp only [List.length_cons] at hb ⊢; omega)]
        simp
      · rw [if_neg (by simp [hneg] : ¬ decide (v < 0) = true)]
        rw [if_neg (show ¬((v.natAbs : Int) > 32767 ∨ (v.natAbs : Int) < -32768)
          by omega)]
        rw [show (32 : Nat) :: (metadataBody (w :: tl2) ++ 93 :: rest) =
          [32] ++ (metadataBody (w :: tl2) ++ 93 :: rest) from rfl]
        rw [readExactly_front [32] _]
        simp only [reduceIte, reduceCtorEq, not_false_eq_true, if_true]
        have hvv : ((v.natAbs : Nat) : Int) = v := by omega
        rw [hvv]
        rw [ih (by simp) (fun x hx => hmd x (by simp [hx])) (values ++ [v]) b rest
          (by simp only [List.length_cons] at hb ⊢; omega)]
        simp

/-- `read_list_of_i16s` inverts the metadata writer. -/
theorem readListOfI16s_meta (md : List Int)
    (hmd : ∀ v ∈ md, -32768 ≤ v ∧ v ≤ 32767) (rest : List Nat) :
    readListOfI16s (91 :: (metadataBody md ++ 93 :: rest)) = .ok (md, rest) := by
  unfold readListOfI16s
  rw [show (91 : Nat) :: (metadataBody md ++ 93 :: rest) =
    [91] ++ (metadataBody md ++ 93 :: rest) from rfl]
  rw [readExactly_front [91] _]
  simp only [pbind_ok]
  cases md with
  | nil =>
    simp only [metadataBody, List.nil_append, List.length_cons]
    rfl
  | cons v tl =>
    rw [readListLoop_elems (v :: tl) (by simp) hmd [] _ rest ?_]
    · simp
    · have h1 := metadataBody_length (v :: tl)
      simp only [List.length_append, List.length_cons] at h1 ⊢
      omega

/-- `from_byte` inverts `to_byte` on every color. -/
theorem fromByte_toByte (c : Color) : Color.fromByte c.toByte = .ok c := by
  cases c <;> rfl

/-- Decoding the rendered bytes of a pixel row recovers the pixels. -/
theorem colorsFromBytes_map_toByte (cs : List Color) :
    colorsFromBytes (cs.map Color.toByte) = .ok cs := by
  induction cs with
  | nil => rfl
  | cons c tl ih =>
    simp only [List.map_cons, colorsFromBytes, fromByte_toByte, ih]

/-- Reading the first `w` positions of a pixel list by index is its
`w`-prefix. -/
theorem range_map_getD (d : Color) :
    ∀ (px : List Color) (w : Nat), w ≤ px.length →
      ((List.range w).map fun col => px.getD col d) = px.take w := by
  intro px
  induction px with
  | nil =>
    intro w hw
    have : w = 0 := by simpa using hw
    subst this
    rfl
  | cons p tl ih =>
    intro w hw
    cases w with
    | zero => rfl
    | succ w =>
      rw [List.range_succ_eq_map]
      simp only [List.map_cons, List.map_map, List.take_succ_cons]
      refine congrArg (p :: ·) ?_
      rw [show ((fun col => (p :: tl).getD col d) ∘ Nat.succ) =
        (fun col => tl.getD col d) from funext fun col => by
          simp [List.getD_cons_succ]]
      exact ih w (by simpa using hw)


/-- The rendered pixel grid, as written row-major with a newline after
each row (the body of `Image::write` / `Image::write_all`). -/
def gridBytes (w h : Nat) (px : List Color) : List Nat :=
  ((List.range h).map fun row =>
    ((List.range w).map fun col =>
      (px.getD (row * w + col) Color.transparent).toByte) ++ [10]).flatten

theorem Image.writeBytes_eq (img : Image) :
    img.writeBytes = gridBytes img.width img.height img.pixels := rfl

/-- Indexing past the first `w` pixels is indexing the dropped list. -/
theorem getD_drop_w (px : List Color) (w i : Nat) :
    (px.drop w).getD i Color.transparent = px.getD (w + i) Color.transparent := by
  simp [List.getD_eq_getElem?_getD, List.getElem?_drop]

/-- Peeling the first row off the rendered grid. -/
theorem gridBytes_succ (w h : Nat) (px : List Color) (hw : w ≤ px.length) :
    gridBytes w (h + 1) px =
      (px.take w).map Color.toByte ++ [10] ++ gridBytes w h (px.drop w) := by
  unfold gridBytes
  rw [List.range_succ_eq_map]
  simp only [List.map_cons, List.flatten_cons, List.map_map]
  have hrow0 : ((List.range w).map fun col =>
      (px.getD (0 * w + col) Color.transparent).toByte) =
      (px.take w).map Color.toByte := by
    rw [← range_map_getD Color.transparent px w hw]
    simp only [List.map_map]
    refine congrArg (List.map · (List.range w)) ?_
    funext col
    simp
  have hfun : ((fun row => ((List.range w).map fun col =>
        (px.getD (row * w + col) Color.transparent).toByte) ++ [10]) ∘
        Nat.succ) =
      (fun row => ((List.range w).map fun col =>
        ((px.drop w).getD (row * w + col) Color.transparent).toByte) ++ [10]) := by
    funext row
    simp only [Function.comp_apply]
    refine congrArg (· ++ [10]) ?_
    refine congrArg (List.map · (List.range w)) ?_
    funext col
    rw [getD_drop_w]
    have harith : Nat.succ row * w + col = w + (row * w + col) := by
      rw [Nat.succ_eq_add_one]
      ring
    rw [harith]
  rw [hrow0, hfun]

/-- A row of rendered pixels followed by anything reads back as the row. -/
theorem readRow_map (w : Nat) (row : List Color) (hw : row.length = w)
    (rest : List Nat) :
    readRow w (row.map Color.toByte ++ rest) = .ok (row, rest) := by
  subst hw
  unfold readRow
  rw [if_neg (by simp)]
  rw [List.take_left' (by simp), List.drop_left' (by simp),
    colorsFromBytes_map_toByte]

/-- The grid reader inverts the grid writer. -/
theorem readGrid_roundtrip (w : Nat) :
    ∀ (h : Nat) (px : List Color) (rest : List Nat), px.length = w * h →
      readGrid w h (gridBytes w h px ++ rest) = .ok (px, rest) := by
  intro h
  induction h with
  | zero =>
    intro px rest hlen
    have hpx : px = [] := by
      rw [← List.length_eq_zero]
      omega
    subst hpx
    rfl
  | succ h ih =>
    intro px rest hlen
    have hw : w ≤ px.length := by
      have h1 : w * 1 ≤ w * (h + 1) := Nat.mul_le_mul_left w (by omega)
      omega
    rw [gridBytes_succ w h px hw]
    simp only [List.append_assoc]
    unfold readGrid
    rw [readRow_map w (px.take w) (by simp [List.length_take]; omega) _]
    simp only [pbind_ok]
    rw [readExactly_front [10] _]
    simp only [pbind_ok]
    rw [ih (px.drop w) rest (by
      rw [List.length_drop, hlen]
      have hm : w * (h + 1) = w * h + w := by ring
      omega)]
    simp only [pbind_ok, List.take_append_drop]

/-- `Image::read` inverts `Image::write` on an image satisfying the pixel
count invariant (tag and metadata are attached by the caller and read
back empty). -/
theorem imageRead_writeBytes (img : Image) (rest : List Nat)
    (hlen : img.pixels.length = img.width * img.height) :
    Image.read img.width img.height (img.writeBytes ++ rest) =
      .ok ({ width := img.width, height := img.height, pixels := img.pixels,
             tag := [], metadata := [] }, rest) := by
  unfold Image.read
  rw [Image.writeBytes_eq, readGrid_roundtrip img.width img.height img.pixels
    rest hlen]
  rfl

theorem readExactly_cons (b : Nat) (x : List Nat) :
    readExactly [b] (b :: x) = .ok ((), x) := readExactly_front [b] x

theorem strBytes_w : strBytes "w" = [119] := rfl
theorem strBytes_h : strBytes "h" = [104] := rfl
theorem strBytes_sp_h : strBytes " h" = [32, 104] := rfl
theorem strBytes_ahi : strBytes "ahi" = [97, 104, 105] := rfl
theorem strBytes_ahi0w : strBytes "ahi0 w" = [97, 104, 105, 48, 32, 119] := rfl
theorem strBytes_ahi1f : strBytes "ahi1 f" = [97, 104, 105, 49, 32, 102] := rfl
theorem strBytes_sp_n : strBytes " n" = [32, 110] := rfl
theorem strBytes_sp_p : strBytes " p" = [32, 112] := rfl
theorem strBytes_sp_i : strBytes " i" = [32, 105] := rfl
theorem strBytes_sp_w : strBytes " w" = [32, 119] := rfl
theorem strBytes_f : strBytes "f" = [102] := rfl
theorem strBytes_p : strBytes "p" = [112] := rfl
theorem strBytes_i : strBytes "i" = [105] := rfl
theorem strBytes_n : strBytes "n" = [110] := rfl

/-- Bit 0 of the assembled flags byte. -/
theorem flags_bit1 (a b c : Bool) :
    (((if a then 1 else 0) ||| (if b then 2 else 0) |||
      (if c then 4 else 0)) &&& 1 ≠ 0) ↔ a = true := by
  cases a <;> cases b <;> cases c <;> decide

/-- Bit 1 of the assembled flags byte. -/
theorem flags_bit2 (a b c : Bool) :
    (((if a then 1 else 0) ||| (if b then 2 else 0) |||
      (if c then 4 else 0)) &&& 2 ≠ 0) ↔ b = true := by
  cases a <;> cases b <;> cases c <;> decide

/-- Bit 2 of the assembled flags byte. -/
theorem flags_bit4 (a b c : Bool) :
    (((if a then 1 else 0) ||| (if b then 2 else 0) |||
      (if c then 4 else 0)) &&& 4 ≠ 0) ↔ c = true := by
  cases a <;> cases b <;> cases c <;> decide

/-- The per-image block of `Collection::write`, over a list of images and
the three feature switches. -/
def imagesBytes (tagF metaF sizeF : Bool) (imgs : List Image) : List Nat :=
  (imgs.map fun img =>
    [10] ++
    (if tagF then
      [34] ++ (img.tag.map charEscapeDefault).flatten ++ [34, 10]
     else []) ++
    (if metaF then [91] ++ metadataBody img.metadata ++ [93, 10] else []) ++
    (if sizeF then
      strBytes "w" ++ natToDecBytes img.width ++ strBytes " h" ++
        natToDecBytes img.height ++ [10]
     else []) ++
    img.writeBytes).flatten

theorem imagesBytes_cons (tagF metaF sizeF : Bool) (img : Image)
    (tl : List Image) :
    imagesBytes tagF metaF sizeF (img :: tl) =
      [10] ++
      (if tagF then
        [34] ++ (img.tag.map charEscapeDefault).flatten ++ [34, 10]
       else []) ++
      (if metaF then [91] ++ metadataBody img.metadata ++ [93, 10] else []) ++
      (if sizeF then
        strBytes "w" ++ natToDecBytes img.width ++ strBytes " h" ++
          natToDecBytes img.height ++ [10]
       else []) ++
      img.writeBytes ++ imagesBytes tagF metaF sizeF tl := by
  unfold imagesBytes
  rw [List.map_cons, List.flatten_cons]

/-- The image loop of `Collection::read` inverts the image block of
`Collection::write`, under the well-formedness conditions of the written
images and agreement of the flag bits with the feature switches. -/
theorem readImages_roundtrip (tagF metaF sizeF : Bool) (flags gw gh : Nat)
    (hf1 : (flags &&& 1 ≠ 0) ↔ sizeF = true)
    (hf2 : (flags &&& 2 ≠ 0) ↔ tagF = true)
    (hf4 : (flags &&& 4 ≠ 0) ↔ metaF = true) :
    ∀ (imgs : List Image) (rest : List Nat),
      (∀ img ∈ imgs,
        img.width ≤ 0xFFFF ∧ img.height ≤ 0xFFFF ∧
        img.pixels.length = img.width * img.height ∧
        (∀ ch ∈ img.tag, ch < 0x110000 ∧ ¬(0xD800 ≤ ch ∧ ch ≤ 0xDFFF)) ∧
        (∀ v ∈ img.metadata, -32768 ≤ v ∧ v ≤ 32767) ∧
        (tagF = false → img.tag = []) ∧
        (metaF = false → img.metadata = []) ∧
        (sizeF = false → img.width = gw ∧ img.height = gh)) →
      readImages flags gw gh imgs.length
          (imagesBytes tagF metaF sizeF imgs ++ rest) =
        .ok (imgs, rest) := by
  intro imgs
  induction imgs generalizing gw gh with
  | nil => intro rest _; rfl
  | cons img tl ih =>
    intro rest hwf
    obtain ⟨hW, hH, hPix, hTag, hMeta, hTagE, hMetaE, hSizeE⟩ :=
      hwf img (by simp)
    have hwf' : ∀ i ∈ tl, _ := fun i hi => hwf i (by simp [hi])
    rw [imagesBytes_cons]
    simp only [List.length_cons, List.append_assoc, List.cons_append,
      List.singleton_append]
    unfold readImages
    rw [readExactly_cons 10 _]
    simp only [pbind_ok]
    cases tagF with
    | false =>
      rw [if_neg (by
        intro hc
        exact absurd (hf2.mp hc) (by simp))]
      simp only [Bool.false_eq_true, if_false, List.nil_append, pbind_ok]
      cases metaF with
      | false =>
        rw [if_neg (by
          intro hc
          exact absurd (hf4.mp hc) (by simp))]
        simp only [Bool.false_eq_true, if_false, List.nil_append, pbind_ok]
        cases sizeF with
        | false =>
          rw [if_neg (by
            intro hc
            exact absurd (hf1.mp hc) (by simp))]
          simp only [Bool.false_eq_true, if_false, List.nil_append, pbind_ok]
          obtain ⟨hgw, hgh⟩ := hSizeE rfl
          subst hgw
          subst hgh
          rw [imageRead_writeBytes img _ hPix]
          simp only [pbind_ok]
          rw [ih _ _ _ hwf']
          simp only [pbind_ok]
          rw [← hTagE rfl, ← hMetaE rfl]
        | true =>
          rw [if_pos (hf1.mpr rfl)]
          simp only [if_true, strBytes_w, strBytes_h, strBytes_sp_h,
            List.append_assoc, List.cons_append, List.singleton_append,
            List.nil_append]
          rw [readExactly_cons 119 _]
          simp only [pbind_ok]
          rw [readHeaderUint_dec 32 img.width _ hW (by norm_num)]
          simp only [pbind_ok]
          rw [readExactly_cons 104 _]
          simp only [pbind_ok]
          rw [readHeaderUint_dec 10 img.height _ hH (by norm_num)]
          simp only [pbind_ok]
          rw [imageRead_writeBytes img _ hPix]
          simp only [pbind_ok]
          rw [ih _ _ _ hwf']
          simp only [pbind_ok]
          rw [← hTagE rfl, ← hMetaE rfl]
      | true =>
        rw [if_pos (hf4.mpr rfl)]
        simp only [if_true, List.append_assoc, List.cons_append,
          List.singleton_append, List.nil_append]
        rw [readListOfI16s_meta img.metadata hMeta _]
        simp only [pbind_ok]
        rw [readExactly_cons 10 _]
        simp only [pbind_ok]
        cases sizeF with
        | false =>
          rw [if_neg (by
            intro hc
            exact absurd (hf1.mp hc) (by simp))]
          simp only [Bool.false_eq_true, if_false, List.nil_append, pbind_ok]
          obtain ⟨hgw, hgh⟩ := hSizeE rfl
          subst hgw
          subst hgh
          rw [imageRead_writeBytes img _ hPix]
          simp only [pbind_ok]
          rw [ih _ _ _ hwf']
          simp only [pbind_ok]
          rw [← hTagE rfl]
        | true =>
          rw [if_pos (hf1.mpr rfl)]
          simp only [if_true, strBytes_w, strBytes_h, strBytes_sp_h,
            List.append_assoc, List.cons_append, List.singleton_append,
            List.nil_append]
          rw [readExactly_cons 119 _]
          simp only [pbind_ok]
          rw [readHeaderUint_dec 32 img.width _ hW (by norm_num)]
          simp only [pbind_ok]
          rw [readExactly_cons 104 _]
          simp only [pbind_ok]
          rw [readHeaderUint_dec 10 img.height _ hH (by norm_num)]
          simp only [pbind_ok]
          rw [imageRead_writeBytes img _ hPix]
          simp only [pbind_ok]
          rw [ih _ _ _ hwf']
          simp only [pbind_ok]
          rw [← hTagE rfl]
    | true =>
      rw [if_pos (hf2.mpr rfl)]
      simp only [if_true, List.append_assoc, List.cons_append,
        List.singleton_append, List.nil_append]
      rw [readQuotedString_escaped img.tag hTag _]
      simp only [pbind_ok]
      rw [readExactly_cons 10 _]
      simp only [pbind_ok]
      cases metaF with
      | false =>
        rw [if_neg (by
          intro hc
          exact absurd (hf4.mp hc) (by simp))]
        simp only [Bool.false_eq_true, if_false, List.nil_append, pbind_ok]
        cases sizeF with
        | false =>
          rw [if_neg (by
            intro hc
            exact absurd (hf1.mp hc) (by simp))]
          simp only [Bool.false_eq_true, if_false, List.nil_append, pbind_ok]
          obtain ⟨hgw, hgh⟩ := hSizeE rfl
          subst hgw
          subst hgh
          rw [imageRead_writeBytes img _ hPix]
          simp only [pbind_ok]
          rw [ih _ _ _ hwf']
          simp only [pbind_ok]
          rw [← hMetaE rfl]
        | true =>
          rw [if_pos (hf1.mpr rfl)]
          simp only [if_true, strBytes_w, strBytes_h, strBytes_sp_h,
            List.append_assoc, List.cons_append, List.singleton_append,
            List.nil_append]
          rw [readExactly_cons 119 _]
          simp only [pbind_ok]
          rw [readHeaderUint_dec 32 img.width _ hW (by norm_num)]
          simp only [pbind_ok]
          rw [readExactly_cons 104 _]
          simp only [pbind_ok]
          rw [readHeaderUint_dec 10 img.height _ hH (by norm_num)]
          simp only [pbind_ok]
          rw [imageRead_writeBytes img _ hPix]
          simp only [pbind_ok]
          rw [ih _ _ _ hwf']
          simp only [pbind_ok]
          rw [← hMetaE rfl]
      | true =>
        rw [if_pos (hf4.mpr rfl)]
        simp only [if_true, List.append_assoc, List.cons_append,
          List.singleton_append, List.nil_append]
        rw [readListOfI16s_meta img.metadata hMeta _]
        simp only [pbind_ok]
        rw [readExactly_cons 10 _]
        simp only [pbind_ok]
        cases sizeF with
        | false =>
          rw [if_neg (by
            intro hc
            exact absurd (hf1.mp hc) (by simp))]
          simp only [Bool.false_eq_true, if_false, List.nil_append, pbind_ok]
          obtain ⟨hgw, hgh⟩ := hSizeE rfl
          subst hgw
          subst hgh
          rw [imageRead_writeBytes img _ hPix]
          simp only [pbind_ok]
          rw [ih _ _ _ hwf']
          simp only [pbind_ok]
        | true =>
          rw [if_pos (hf1.mpr rfl)]
          simp only [if_true, strBytes_w, strBytes_h, strBytes_sp_h,
            List.append_assoc, List.cons_append, List.singleton_append,
            List.nil_append]
          rw [readExactly_cons 119 _]
          simp only [pbind_ok]
          rw [readHeaderUint_dec 32 img.width _ hW (by norm_num)]
          simp only [pbind_ok]
          rw [readExactly_cons 104 _]
          simp only [pbind_ok]
          rw [readHeaderUint_dec 10 img.height _ hH (by norm_num)]
          simp only [pbind_ok]
          rw [imageRead_writeBytes img _ hPix]
          simp only [pbind_ok]
          rw [ih _ _ _ hwf']
          simp only [pbind_ok]

/-- Decode-encode round trip for one palette slot, on canonical values
(alpha 0 only as fully transparent black). -/
theorem paletteFieldDecode_digits (r g b a : Nat) (hr : r < 256)
    (hg : g < 256) (hb : b < 256) (ha : a < 256)
    (hcanon : a ≠ 0 ∨ (r = 0 ∧ g = 0 ∧ b = 0)) :
    paletteFieldDecode (paletteFieldDigits (r, g, b, a)) = .ok (r, g, b, a) := by
  by_cases ha0 : a = 0
  · subst ha0
    rcases hcanon with h | ⟨h1, h2, h3⟩
    · exact absurd rfl h
    · subst h1; subst h2; subst h3
      rfl
  · unfold paletteFieldDigits
    dsimp only
    rw [if_neg ha0]
    by_cases ha255 : a = 0xff
    · rw [if_pos ha255]
      by_cases hgray : r = g ∧ g = b
      · rw [if_pos hgray]
        obtain ⟨hrg, hgb⟩ := hgray
        by_cases h17 : r % 0x11 = 0
        · rw [if_pos h17]
          simp only [paletteFieldDecode, Except.ok.injEq, Prod.mk.injEq]
          omega
        · rw [if_neg h17]
          simp only [paletteFieldDecode, Except.ok.injEq, Prod.mk.injEq]
          omega
      · rw [if_neg hgray]
        by_cases hsh : r % 0x11 = 0 ∧ g % 0x11 = 0 ∧ b % 0x11 = 0
        · rw [if_pos hsh]
          simp only [paletteFieldDecode, Except.ok.injEq, Prod.mk.injEq]
          omega
        · rw [if_neg hsh]
          simp only [paletteFieldDecode, Except.ok.injEq, Prod.mk.injEq]
          omega
    · rw [if_neg ha255]
      by_cases ha17 : a % 0x11 = 0
      · rw [if_pos ha17]
        by_cases hsh : r % 0x11 = 0 ∧ g % 0x11 = 0 ∧ b % 0x11 = 0
        · rw [if_pos hsh]
          simp only [paletteFieldDecode, Except.ok.injEq, Prod.mk.injEq]
          omega
        · rw [if_neg hsh]
          simp only [paletteFieldDecode, Except.ok.injEq, Prod.mk.injEq]
          omega
      · rw [if_neg ha17]
        by_cases hsh : r % 0x11 = 0 ∧ g % 0x11 = 0 ∧ b % 0x11 = 0
        · rw [if_pos hsh]
          simp only [paletteFieldDecode, Except.ok.injEq, Prod.mk.injEq]
          omega
        · rw [if_neg hsh]
          simp only [paletteFieldDecode, Except.ok.injEq, Prod.mk.injEq]
          omega

/-- Every digit value the palette-slot encoder emits is below 16. -/
theorem paletteFieldDigits_lt16 (r g b a : Nat) (hr : r < 256) (hg : g < 256)
    (hb : b < 256) (ha : a < 256) :
    ∀ d ∈ paletteFieldDigits (r, g, b, a), d < 16 := by
  unfold paletteFieldDigits
  dsimp only
  split_ifs <;> intro d hd <;> simp only [List.mem_cons,
    List.not_mem_nil, or_false, List.mem_singleton] at hd <;>
    rcases hd with rfl | hd <;> first | omega | (try rcases hd with rfl | hd) <;>
    first | omega | (try rcases hd with rfl | hd) <;>
    first | omega | (try rcases hd with rfl | hd) <;>
    first | omega | (try rcases hd with rfl | hd) <;>
    first | omega | (try rcases hd with rfl | hd) <;>
    first | omega | (try rcases hd with rfl | hd) <;>
    first | omega | simp at hd

theorem map_hexVal_hexByteU (ds : List Nat) (h : ∀ d ∈ ds, d < 16) :
    (ds.map hexByteU).map hexVal = ds := by
  induction ds with
  | nil => rfl
  | cons d tl ih =>
    simp only [List.map_cons, hexVal_hexByteU d (h d (by simp)),
      ih (fun x hx => h x (by simp [hx]))]

/-- One palette field's hex bytes, up to the slot terminator, scan back to
the emitted digit values. -/
theorem paletteField_hexDigits (s : Rgba) (t : Nat) (ht : t = 10 ∨ t = 59)
    (rest : List Nat) (hr : s.1 < 256) (hg : s.2.1 < 256) (hb : s.2.2.1 < 256)
    (ha : s.2.2.2 < 256) :
    readHexDigits t ((paletteFieldDigits s).map hexByteU ++ t :: rest) =
      .ok (paletteFieldDigits s, rest) := by
  obtain ⟨r, g, b, a⟩ := s
  simp only at hr hg hb ha
  have hlt := paletteFieldDigits_lt16 r g b a hr hg hb ha
  rw [readHexDigits_append t _ rest
    (by
      intro x hx
      obtain ⟨d, hdm, hde⟩ := List.mem_map.mp hx
      have hd := hlt d hdm
      rw [← hde]
      exact isHexDigitByte_hexByteU d hd)
    (by
      intro hx
      obtain ⟨d, hdm, hde⟩ := List.mem_map.mp hx
      have := hlt d hdm
      unfold hexByteU at hde
      split_ifs at hde <;> omega)]
  rw [map_hexVal_hexByteU _ hlt]

/-- Canonical-slot decode of the emitted digits, tuple form. -/
theorem paletteFieldDecode_digits' (s : Rgba) (hr : s.1 < 256)
    (hg : s.2.1 < 256) (hb : s.2.2.1 < 256) (ha : s.2.2.2 < 256)
    (hcanon : s.2.2.2 = 0 → s = (0, 0, 0, 0)) :
    paletteFieldDecode (paletteFieldDigits s) = .ok s := by
  obtain ⟨r, g, b, a⟩ := s
  simp only at hr hg hb ha hcanon
  refine paletteFieldDecode_digits r g b a hr hg hb ha ?_
  by_cases h : a = 0
  · right
    have := hcanon h
    injection this with h1 h2
    injection h2 with h2 h3
    injection h3 with h3 h4
    exact ⟨h1, h2, h3⟩
  · exact Or.inl h

/-- The field loop of `Palette::read` inverts `Palette::write` over the
slot list (the last slot closed by the newline, earlier ones by
semicolons). -/
theorem paletteWriteBytes_nil : paletteWriteBytes [] = [] := rfl

theorem paletteWriteBytes_cons (s : Rgba) (tl : List Rgba) :
    paletteWriteBytes (s :: tl) =
      (paletteFieldDigits s).map hexByteU ++
        (if tl.isEmpty then [10] else [59]) ++ paletteWriteBytes tl := rfl

theorem paletteReadFields_roundtrip :
    ∀ (slots : List Rgba) (rest : List Nat),
      (∀ s ∈ slots, s.1 < 256 ∧ s.2.1 < 256 ∧ s.2.2.1 < 256 ∧ s.2.2.2 < 256 ∧
        (s.2.2.2 = 0 → s = (0, 0, 0, 0))) →
      paletteReadFields slots.length (paletteWriteBytes slots ++ rest) =
        .ok (slots, rest) := by
  intro slots
  induction slots with
  | nil => intro rest _; rfl
  | cons s tl ih =>
    intro rest hwf
    obtain ⟨hr, hg, hb, ha, hcanon⟩ := hwf s (by simp)
    rw [paletteWriteBytes_cons]
    cases tl with
    | nil =>
      simp only [paletteWriteBytes_nil, List.isEmpty_nil, if_true,
        List.length_cons, List.length_nil, List.append_assoc,
        List.cons_append, List.nil_append, List.singleton_append,
        List.append_nil]
      unfold paletteReadFields
      simp only [reduceIte]
      rw [paletteField_hexDigits s 10 (Or.inl rfl) rest hr hg hb ha]
      simp only [pbind_ok]
      rw [paletteFieldDecode_digits' s hr hg hb ha hcanon]
      rfl
    | cons t tl2 =>
      simp only [List.isEmpty_cons, if_false, List.length_cons,
        List.append_assoc, List.cons_append, List.nil_append,
        List.singleton_append, Bool.false_eq_true]
      unfold paletteReadFields
      simp only [reduceIte, Nat.succ_ne_zero]
      rw [paletteField_hexDigits s 59 (Or.inr rfl) _ hr hg hb ha]
      simp only [pbind_ok]
      rw [paletteFieldDecode_digits' s hr hg hb ha hcanon]
      dsimp only
      have ih' := ih rest (fun x hx => hwf x (by simp [hx]))
      rw [List.length_cons] at ih'
      rw [ih']
      rfl

/-- `Palette::read` inverts `Palette::write` on a well-formed 16-slot
palette. -/
theorem paletteRead_roundtrip (p : List Rgba) (h16 : p.length = 16)
    (hwf : ∀ s ∈ p, s.1 < 256 ∧ s.2.1 < 256 ∧ s.2.2.1 < 256 ∧ s.2.2.2 < 256 ∧
      (s.2.2.2 = 0 → s = (0, 0, 0, 0))) (rest : List Nat) :
    paletteRead (paletteWriteBytes p ++ rest) = .ok (p, rest) := by
  unfold paletteRead
  rw [← h16]
  exact paletteReadFields_roundtrip p rest hwf

/-- The palette loop of `Collection::read` inverts the palette block. -/
theorem readPalettes_roundtrip :
    ∀ (ps : List (List Rgba)) (rest : List Nat),
      (∀ p ∈ ps, p.length = 16 ∧
        ∀ s ∈ p, s.1 < 256 ∧ s.2.1 < 256 ∧ s.2.2.1 < 256 ∧ s.2.2.2 < 256 ∧
          (s.2.2.2 = 0 → s = (0, 0, 0, 0))) →
      readPalettes ps.length ((ps.map paletteWriteBytes).flatten ++ rest) =
        .ok (ps, rest) := by
  intro ps
  induction ps with
  | nil => intro rest _; rfl
  | cons p tl ih =>
    intro rest hwf
    obtain ⟨h16, hslots⟩ := hwf p (by simp)
    simp only [List.map_cons, List.flatten_cons, List.length_cons,
      List.append_assoc]
    unfold readPalettes
    rw [paletteRead_roundtrip p h16 hslots _]
    simp only [pbind_ok]
    rw [ih _ (fun x hx => hwf x (by simp [hx]))]
    rfl

theorem readExactly_cons3 (a b c : Nat) (x : List Nat) :
    readExactly [a, b, c] (a :: b :: c :: x) = .ok ((), x) :=
  readExactly_front [a, b, c] x

/-- `Collection::write` with the let-bound locals spelled out and the
image block folded through `imagesBytes`. -/
theorem Collection.write_eq (c : Collection) :
    Collection.write c =
      (if c.palettes.isEmpty && c.globalSize.isSome && !c.hasStringTags &&
          !c.hasMetadata then
        match c.globalSize with
        | some (w, h) =>
          strBytes "ahi0 w" ++ natToDecBytes w ++ strBytes " h" ++
            natToDecBytes h ++ strBytes " n" ++
            natToDecBytes c.images.length ++ [10]
        | none => []
       else
        strBytes "ahi1 f" ++ natToHexBytesU
            ((if c.globalSize.isNone then 1 else 0) |||
             (if c.hasStringTags then 2 else 0) |||
             (if c.hasMetadata then 4 else 0)) ++ strBytes " p" ++
          natToDecBytes c.palettes.length ++ strBytes " i" ++
          natToDecBytes c.images.length ++
          (match c.globalSize with
           | some (w, h) =>
             strBytes " w" ++ natToDecBytes w ++ strBytes " h" ++
               natToDecBytes h
           | none => []) ++ [10]) ++
      (if c.palettes.isEmpty then []
       else [10] ++ (c.palettes.map paletteWriteBytes).flatten) ++
      imagesBytes c.hasStringTags c.hasMetadata c.globalSize.isNone
        c.images := rfl

/-- A defined global size is bounded by the per-image bounds. -/
theorem globalSize_le (c : Collection) (w h : Nat)
    (hwh : c.globalSize = some (w, h))
    (himg : ∀ img ∈ c.images, img.width ≤ 0xFFFF ∧ img.height ≤ 0xFFFF) :
    w ≤ 0xFFFF ∧ h ≤ 0xFFFF := by
  cases hi : c.images with
  | nil =>
    simp only [Collection.globalSize, hi, Option.some.injEq, Prod.mk.injEq]
      at hwh
    omega
  | cons i tl =>
    simp only [Collection.globalSize, hi] at hwh
    split at hwh
    · simp only [Option.some.injEq, Prod.mk.injEq] at hwh
      have := himg i (by rw [hi]; simp)
      omega
    · exact absurd hwh (by simp)

/-- A defined global size pins every image's dimensions. -/
theorem globalSize_sizes (c : Collection) (w h : Nat)
    (hwh : c.globalSize = some (w, h)) :
    ∀ img ∈ c.images, img.width = w ∧ img.height = h := by
  cases hi : c.images with
  | nil => simp [hi]
  | cons i tl =>
    simp only [Collection.globalSize, hi] at hwh
    split at hwh
    · rename_i hall
      simp only [Option.some.injEq, Prod.mk.injEq] at hwh
      intro img himg
      have := List.all_eq_true.mp hall img himg
      simp only [Bool.and_eq_true, decide_eq_true_eq] at this
      omega
    · exact absurd hwh (by simp)

theorem readHeaderUint_ver0 (x : List Nat) :
    readHeaderUint 32 (48 :: 32 :: x) = .ok (0, x) := rfl

theorem readHeaderUint_ver1 (x : List Nat) :
    readHeaderUint 32 (49 :: 32 :: x) = .ok (1, x) := rfl

/-- Reading back the single-hex-digit flags field. -/
theorem readHexU32_flags (f : Nat) (hf : f < 16) (x : List Nat) :
    readHexU32 32 (natToHexBytesU f ++ 32 :: x) = .ok (f, x) := by
  rw [natToHexBytesU_small f hf]
  rw [readHexU32_append 32 [hexByteU f] x
    (by
      intro b hb
      simp only [List.mem_singleton] at hb
      subst hb
      exact isHexDigitByte_hexByteU f hf)
    (by
      simp only [List.mem_singleton]
      unfold hexByteU
      split_ifs <;> omega)
    (by simp) (by simp)]
  simp [hexFold, hexVal_hexByteL, hexVal_hexByteU f hf]

theorem flags_lt16 : ∀ (a b c : Bool),
    ((if a then 1 else 0) ||| (if b then 2 else 0) |||
      (if c then 4 else 0)) < 16 := by decide

theorem flags1_lt16 (b c : Bool) :
    ((1 ||| (if b then 2 else 0)) ||| (if c then 4 else 0)) < 16 := by
  cases b <;> cases c <;> decide

theorem flags0_bit1 (b c : Bool) :
    (((0 ||| (if b then 2 else 0)) ||| (if c then 4 else 0)) &&& 1 ≠ 0) ↔
      false = true := by
  cases b <;> cases c <;> decide

theorem flags0_bit2 (b c : Bool) :
    (((0 ||| (if b then 2 else 0)) ||| (if c then 4 else 0)) &&& 2 ≠ 0) ↔
      b = true := by
  cases b <;> cases c <;> decide

theorem flags0_bit4 (b c : Bool) :
    (((0 ||| (if b then 2 else 0)) ||| (if c then 4 else 0)) &&& 4 ≠ 0) ↔
      c = true := by
  cases b <;> cases c <;> decide

theorem flags1_bit1 (b c : Bool) :
    (((1 ||| (if b then 2 else 0)) ||| (if c then 4 else 0)) &&& 1 ≠ 0) ↔
      true = true := by
  cases b <;> cases c <;> decide

theorem flags1_bit2 (b c : Bool) :
    (((1 ||| (if b then 2 else 0)) ||| (if c then 4 else 0)) &&& 2 ≠ 0) ↔
      b = true := by
  cases b <;> cases c <;> decide

theorem flags1_bit4 (b c : Bool) :
    (((1 ||| (if b then 2 else 0)) ||| (if c then 4 else 0)) &&& 4 ≠ 0) ↔
      c = true := by
  cases b <;> cases c <;> decide

/-- Claim C1, amended: `Collection::read` inverts `Collection::write` on
every well-formed collection — palettes of exactly 16 canonical slots
(channels below 256, alpha 0 only as fully transparent black), at most
`0xFFFF` palettes and images, per-image dimensions at most `0xFFFF` with
`pixels.length = width * height`, tag characters legal Unicode scalar
values, and metadata values in the `i16` range.  The canonical-alpha slot
condition is necessary: see the counterexample. -/
theorem claim_C1_amended (c : Collection)
    (hpal : ∀ p ∈ c.palettes, p.length = 16 ∧
      ∀ s ∈ p, s.1 < 256 ∧ s.2.1 < 256 ∧ s.2.2.1 < 256 ∧ s.2.2.2 < 256 ∧
        (s.2.2.2 = 0 → s = (0, 0, 0, 0)))
    (hplen : c.palettes.length ≤ 0xFFFF)
    (hilen : c.images.length ≤ 0xFFFF)
    (himg : ∀ img ∈ c.images,
      img.width ≤ 0xFFFF ∧ img.height ≤ 0xFFFF ∧
      img.pixels.length = img.width * img.height ∧
      (∀ ch ∈ img.tag, ch < 0x110000 ∧ ¬(0xD800 ≤ ch ∧ ch ≤ 0xDFFF)) ∧
      (∀ v ∈ img.metadata, -32768 ≤ v ∧ v ≤ 32767)) :
    Collection.read (Collection.write c) = .ok (c, []) := by
  have htagsE : ∀ i ∈ c.images, c.hasStringTags = false → i.tag = [] :=
    fun i hi hf => (hasStringTags_eq_false_iff c).mp hf i hi
  have hmetasE : ∀ i ∈ c.images, c.hasMetadata = false → i.metadata = [] :=
    fun i hi hf => (hasMetadata_eq_false_iff c).mp hf i hi
  rw [Collection.write_eq]
  by_cases hv0 : (c.palettes.isEmpty && c.globalSize.isSome &&
      !c.hasStringTags && !c.hasMetadata) = true
  · rw [if_pos hv0]
    simp only [Bool.and_eq_true, Bool.not_eq_true'] at hv0
    obtain ⟨⟨⟨hpe, hgs⟩, hnt⟩, hnm⟩ := hv0
    obtain ⟨⟨gw, gh⟩, hwh⟩ := Option.isSome_iff_exists.mp hgs
    have hpe' : c.palettes = [] := List.isEmpty_iff.mp hpe
    have hsz := globalSize_sizes c gw gh hwh
    have hbounds := globalSize_le c gw gh hwh
      (fun i hi => ⟨(himg i hi).1, (himg i hi).2.1⟩)
    rw [hwh, hnt, hnm]
    dsimp only
    rw [if_pos hpe]
    simp only [Option.isNone_some, strBytes_ahi0w, strBytes_sp_h,
      strBytes_sp_n, List.append_assoc, List.cons_append,
      List.singleton_append, List.nil_append]
    unfold Collection.read
    simp only [strBytes_ahi, strBytes_f, strBytes_p, strBytes_i, strBytes_w,
      strBytes_h, strBytes_n]
    rw [readExactly_cons3 97 104 105 _]
    simp only [pbind_ok]
    rw [readHeaderUint_ver0]
    simp only [pbind_ok]
    rw [if_neg (by norm_num)]
    rw [if_neg (by norm_num)]
    simp only [pbind_ok]
    rw [if_neg (by norm_num)]
    simp only [pbind_ok]
    rw [if_pos (by trivial)]
    rw [readExactly_cons 119 _]
    simp only [pbind_ok]
    rw [readHeaderUint_dec 32 gw _ hbounds.1 (by norm_num)]
    simp only [pbind_ok]
    rw [readExactly_cons 104 _]
    simp only [pbind_ok]
    rw [readHeaderUint_dec 32 gh _ hbounds.2 (by norm_num)]
    simp only [pbind_ok]
    rw [readExactly_cons 110 _]
    simp only [pbind_ok]
    rw [readHeaderUint_dec 10 c.images.length _ hilen (by norm_num)]
    simp only [pbind_ok]
    rw [if_neg (by norm_num)]
    simp only [pbind_ok]
    rw [show readPalettes 0 (imagesBytes false false false c.images) =
      .ok ([], imagesBytes false false false c.images) from rfl]
    simp only [pbind_ok]
    rw [← List.append_nil (imagesBytes false false false c.images)]
    rw [readImages_roundtrip false false false 0 gw gh
      (by decide) (by decide) (by decide) c.images []
      (fun i hi => ⟨(himg i hi).1, (himg i hi).2.1, (himg i hi).2.2.1,
        (himg i hi).2.2.2.1, (himg i hi).2.2.2.2,
        fun _ => htagsE i hi hnt, fun _ => hmetasE i hi hnm,
        fun _ => hsz i hi⟩)]
    simp only [pbind_ok]
    rw [← hpe']
  · rw [if_neg hv0]
    cases hgs : c.globalSize with
    | none =>
      dsimp only
      rw [show Option.isNone (none : Option (Nat × Nat)) = true from rfl]
      simp only [strBytes_ahi1f, strBytes_sp_p,
        strBytes_sp_i, List.append_assoc, List.cons_append,
        List.singleton_append, List.nil_append, List.append_nil]
      unfold Collection.read
      simp only [strBytes_ahi, strBytes_f, strBytes_p, strBytes_i, strBytes_w,
        strBytes_h, strBytes_n]
      rw [readExactly_cons3 97 104 105 _]
      simp only [pbind_ok]
      rw [readHeaderUint_ver1]
      simp only [pbind_ok]
      rw [if_neg (by norm_num)]
      rw [if_pos (by trivial)]
      rw [readExactly_cons 102 _]
      simp only [pbind_ok, if_true]
      rw [readHexU32_flags _ (flags1_lt16 c.hasStringTags c.hasMetadata) _]
      simp only [pbind_ok]
      rw [readExactly_cons 112 _]
      simp only [pbind_ok]
      rw [readHeaderUint_dec 32 c.palettes.length _ hplen (by norm_num)]
      simp only [pbind_ok]
      rw [if_neg (by norm_num)]
      rw [if_pos ((flags1_bit1 c.hasStringTags c.hasMetadata).mpr rfl)]
      rw [readExactly_cons 105 _]
      simp only [pbind_ok]
      rw [readHeaderUint_dec 10 c.images.length _ hilen (by norm_num)]
      simp only [pbind_ok]
      cases hp : c.palettes with
      | nil =>
        simp only [List.isEmpty_nil, if_true, List.length_nil,
          List.nil_append]
        rw [if_neg (by norm_num)]
        simp only [pbind_ok]
        rw [show readPalettes 0
          (imagesBytes c.hasStringTags c.hasMetadata true c.images) =
          .ok ([], imagesBytes c.hasStringTags c.hasMetadata true c.images)
          from rfl]
        simp only [pbind_ok]
        rw [← List.append_nil
          (imagesBytes c.hasStringTags c.hasMetadata true c.images)]
        rw [readImages_roundtrip c.hasStringTags c.hasMetadata true _ 0 0
          (flags1_bit1 c.hasStringTags c.hasMetadata)
          (flags1_bit2 c.hasStringTags c.hasMetadata)
          (flags1_bit4 c.hasStringTags c.hasMetadata) c.images []
          (fun i hi => ⟨(himg i hi).1, (himg i hi).2.1, (himg i hi).2.2.1,
            (himg i hi).2.2.2.1, (himg i hi).2.2.2.2,
            fun hf => htagsE i hi hf, fun hf => hmetasE i hi hf,
            fun hf => absurd hf (by simp)⟩)]
        simp only [pbind_ok]
        rw [← hp]
      | cons p ptl =>
        rw [hp] at hpal
        simp only [List.isEmpty_cons, Bool.false_eq_true, if_false,
          List.length_cons, List.append_assoc, List.cons_append,
          List.singleton_append]
        rw [if_pos (by norm_num)]
        rw [readExactly_cons 10 _]
        simp only [pbind_ok]
        have hrp := readPalettes_roundtrip (p :: ptl)
          (imagesBytes c.hasStringTags c.hasMetadata true c.images) hpal
        rw [List.length_cons] at hrp
        rw [hrp]
        simp only [pbind_ok]
        rw [← List.append_nil
          (imagesBytes c.hasStringTags c.hasMetadata true c.images)]
        rw [readImages_roundtrip c.hasStringTags c.hasMetadata true _ 0 0
          (flags1_bit1 c.hasStringTags c.hasMetadata)
          (flags1_bit2 c.hasStringTags c.hasMetadata)
          (flags1_bit4 c.hasStringTags c.hasMetadata) c.images []
          (fun i hi => ⟨(himg i hi).1, (himg i hi).2.1, (himg i hi).2.2.1,
            (himg i hi).2.2.2.1, (himg i hi).2.2.2.2,
            fun hf => htagsE i hi hf, fun hf => hmetasE i hi hf,
            fun hf => absurd hf (by simp)⟩)]
        simp only [pbind_ok]
        rw [← hp]
    | some gwgh =>
      obtain ⟨gw, gh⟩ := gwgh
      have hsz := globalSize_sizes c gw gh hgs
      have hbounds := globalSize_le c gw gh hgs
        (fun i hi => ⟨(himg i hi).1, (himg i hi).2.1⟩)
      dsimp only
      rw [show (Option.isNone (some (gw, gh))) = false from rfl]
      simp only [strBytes_ahi1f, strBytes_sp_p,
        strBytes_sp_i, strBytes_sp_w, strBytes_sp_h, List.append_assoc,
        List.cons_append, List.singleton_append, List.nil_append]
      unfold Collection.read
      simp only [strBytes_ahi, strBytes_f, strBytes_p, strBytes_i, strBytes_w,
        strBytes_h, strBytes_n]
      rw [readExactly_cons3 97 104 105 _]
      simp only [pbind_ok]
      rw [readHeaderUint_ver1]
      simp only [pbind_ok]
      rw [if_neg (by norm_num)]
      rw [if_pos (by trivial)]
      rw [readExactly_cons 102 _]
      simp only [pbind_ok]
      rw [readHexU32_flags _ (flags_lt16 false c.hasStringTags c.hasMetadata) _]
      simp only [pbind_ok]
      rw [if_pos (by trivial)]
      rw [readExactly_cons 112 _]
      simp only [pbind_ok]
      rw [readHeaderUint_dec 32 c.palettes.length _ hplen (by norm_num)]
      simp only [pbind_ok]
      rw [if_neg (by norm_num)]
      rw [if_neg (fun hc => absurd
        ((flags_bit1 false c.hasStringTags c.hasMetadata).mp hc) (by simp))]
      rw [readExactly_cons 105 _]
      simp only [pbind_ok]
      rw [readHeaderUint_dec 32 c.images.length _ hilen (by norm_num)]
      simp only [pbind_ok]
      rw [readExactly_cons 119 _]
      simp only [pbind_ok]
      rw [readHeaderUint_dec 32 gw _ hbounds.1 (by norm_num)]
      simp only [pbind_ok]
      rw [readExactly_cons 104 _]
      simp only [pbind_ok]
      rw [readHeaderUint_dec 10 gh _ hbounds.2 (by norm_num)]
      simp only [pbind_ok]
      cases hp : c.palettes with
      | nil =>
        simp only [List.isEmpty_nil, if_true, List.length_nil,
          List.nil_append]
        rw [if_neg (by norm_num)]
        simp only [pbind_ok]
        rw [show readPalettes 0
          (imagesBytes c.hasStringTags c.hasMetadata false c.images) =
          .ok ([], imagesBytes c.hasStringTags c.hasMetadata false c.images)
          from rfl]
        simp only [pbind_ok]
        rw [← List.append_nil
          (imagesBytes c.hasStringTags c.hasMetadata false c.images)]
        rw [readImages_roundtrip c.hasStringTags c.hasMetadata false _ gw gh
          (flags_bit1 false c.hasStringTags c.hasMetadata)
          (flags_bit2 false c.hasStringTags c.hasMetadata)
          (flags_bit4 false c.hasStringTags c.hasMetadata) c.images []
          (fun i hi => ⟨(himg i hi).1, (himg i hi).2.1, (himg i hi).2.2.1,
            (himg i hi).2.2.2.1, (himg i hi).2.2.2.2,
            fun hf => htagsE i hi hf, fun hf => hmetasE i hi hf,
            fun _ => hsz i hi⟩)]
        simp only [pbind_ok]
        rw [← hp]
      | cons p ptl =>
        rw [hp] at hpal
        simp only [List.isEmpty_cons, Bool.false_eq_true, if_false,
          List.length_cons, List.append_assoc, List.cons_append,
          List.singleton_append]
        rw [if_pos (by norm_num)]
        rw [readExactly_cons 10 _]
        simp only [pbind_ok]
        have hrp := readPalettes_roundtrip (p :: ptl)
          (imagesBytes c.hasStringTags c.hasMetadata false c.images) hpal
        rw [List.length_cons] at hrp
        rw [hrp]
        simp only [pbind_ok]
        rw [← List.append_nil
          (imagesBytes c.hasStringTags c.hasMetadata false c.images)]
        rw [readImages_roundtrip c.hasStringTags c.hasMetadata false _ gw gh
          (flags0_bit1 c.hasStringTags c.hasMetadata)
          (flags0_bit2 c.hasStringTags c.hasMetadata)
          (flags0_bit4 c.hasStringTags c.hasMetadata) c.images []
          (fun i hi => ⟨(himg i hi).1, (himg i hi).2.1, (himg i hi).2.2.1,
            (himg i hi).2.2.2.1, (himg i hi).2.2.2.2,
            fun hf => htagsE i hi hf, fun hf => hmetasE i hi hf,
            fun _ => hsz i hi⟩)]
        simp only [pbind_ok]
        rw [← hp]

/-- Claim C1, counterexample: a collection whose palette holds the
reachable slot value (1, 2, 3, 0) — alpha zero with non-zero color
channels — writes that slot as the empty field, so reading the written
bytes yields a different collection (the slot comes back (0, 0, 0, 0)). -/
theorem claim_C1_counterexample :
    Collection.read (Collection.write
      { palettes := [(1, 2, 3, 0) :: List.replicate 15 (0, 0, 0, 0)],
        images := [] }) =
      .ok ({ palettes := [List.replicate 16 (0, 0, 0, 0)],
             images := [] }, []) ∧
    ((1, 2, 3, 0) :: List.replicate 15 ((0, 0, 0, 0) : Rgba)) ≠
      List.replicate 16 (0, 0, 0, 0) := by
  constructor
  · rfl
  · decide

/-- Witness for C1 (amended) on a collection exercising every feature at
once: one palette, two images of different sizes, a tag and metadata. -/
theorem claim_C1_amended_witness :
    Collection.read (Collection.write
      { palettes := [List.replicate 16 (0x11, 0x22, 0x33, 0xFF)],
        images :=
          [{ width := 1, height := 1, pixels := [Color.red],
             tag := [65], metadata := [1, -2] },
           { width := 2, height := 1, pixels := [Color.blue, Color.white],
             tag := [], metadata := [] }] }) =
      .ok ({ palettes := [List.replicate 16 (0x11, 0x22, 0x33, 0xFF)],
             images :=
               [{ width := 1, height := 1, pixels := [Color.red],
                  tag := [65], metadata := [1, -2] },
                { width := 2, height := 1, pixels := [Color.blue, Color.white],
                  tag := [], metadata := [] }] }, []) :=
  claim_C1_amended _ (by decide) (by decide) (by decide) (by decide)
